import Mathlib

/-!
Verification development for the EXR-Toolkit export core
(`src/app/services/export_runner.py`, `src/app/core/types.py`,
`src/app/core/sequence.py`).

The Python data model and the pure decision logic are embedded as
executable Lean definitions; the orchestration code (`ExportRunner.run`
and the two export paths), whose effects are file I/O, thread pools and
Qt signals, is embedded as pure trace-producing functions over an
explicit environment (validation outcome, per-frame success oracles,
stop-flag schedule, completion order).  Python `int` arithmetic is
modelled with `Int`/`Nat`, Python float arithmetic (`/` on ints and the
subsequent `*`) with an explicit binary64 rounding model over `ℚ`, and
raising `ZeroDivisionError` with `Option`.
-/

namespace EXR

/-- Python `str.lower()` restricted to its ASCII behaviour (compression
names handled by the runner are ASCII). -/
def pyLower (s : String) : String := String.mk (s.data.map Char.toLower)

/-- The ASCII single-quote character used by the runner's f-strings. -/
def sq : Char := Char.ofNat 39

/-- Wrap a string in single quotes, as the f-strings
`f"Source sequence '{seq_id}' ..."` and `f"Attribute '{name}' ..."` do. -/
def quoted (s : String) : String := String.singleton sq ++ s ++ String.singleton sq

/-! ## Data model (`src/app/core/types.py`) -/

/-- `ChannelFormat` from `types.py`. -/
structure ChannelFormat where
  oiio_type : String
  description : String := ""
deriving DecidableEq, Repr

/-- `ChannelSourceRef` from `types.py`. -/
structure ChannelSourceRef where
  sequence_id : String
  channel_name : String
  subimage_index : Nat := 0
deriving DecidableEq, Repr

/-- `ChannelSpec` from `types.py` (the `source` back-pointer is unused by
the export runner and omitted). -/
structure ChannelSpec where
  name : String
  format : ChannelFormat
  subimage_index : Nat := 0
deriving DecidableEq, Repr

/-- `AttributeSpec` from `types.py`; the dynamically typed `value : Any`
is modelled by an opaque string payload (the export decision logic never
inspects it). -/
structure AttributeSpec where
  name : String
  oiio_type : String
  value : String
deriving DecidableEq, Repr

/-- `AttributeSet` from `types.py`. -/
structure AttributeSet where
  attributes : List AttributeSpec
deriving DecidableEq, Repr

/-- `AttributeSet.get_by_name`: first attribute with the given name. -/
def AttributeSet.get_by_name (s : AttributeSet) (n : String) : Option AttributeSpec :=
  s.attributes.find? (fun a => a.name == n)

/-- `ImageSpecSnapshot` from `types.py` (fields used by the runner). -/
structure ImageSpecSnapshot where
  width : Nat
  height : Nat
  nchannels : Nat
  channelnames : List String
deriving DecidableEq, Repr

/-- `SubImageProbe` from `types.py`. -/
structure SubImageProbe where
  spec : ImageSpecSnapshot
  channels : List ChannelSpec
  attributes : AttributeSet
deriving DecidableEq, Repr

/-- `FileProbe` from `types.py`. -/
structure FileProbe where
  path : String
  subimages : List SubImageProbe
deriving DecidableEq, Repr

/-- `FileProbe.main_subimage`: `subimages[0] if subimages else None`. -/
def FileProbe.main_subimage (p : FileProbe) : Option SubImageProbe :=
  p.subimages.head?

/-- `SequencePathPattern` from `types.py` (the pattern is kept as the raw
character list of the Python string). -/
structure SequencePathPattern where
  pattern : List Char
deriving DecidableEq, Repr

/-- `SequenceSpec` from `types.py` (fields used by the export core;
frame numbers are Python ints). -/
structure SequenceSpec where
  id : String
  display_name : String
  pattern : SequencePathPattern
  source_dir : String
  frames : List Int
  static_probe : Option FileProbe
deriving DecidableEq, Repr

/-- `OutputChannel` from `types.py`. -/
structure OutputChannel where
  output_name : String
  source : ChannelSourceRef
  override_format : Option ChannelFormat := none
deriving DecidableEq, Repr

/-- `ExportSpec` from `types.py` (fields used by the export core). -/
structure ExportSpec where
  output_dir : String
  filename_pattern : List Char
  output_channels : List OutputChannel
  output_attributes : AttributeSet
  compression : String
  compression_policy : String := "skip"
  frame_range : Option (Int × Int) := none
deriving DecidableEq, Repr

/-- The sequence mapping `dict[str, SequenceSpec]`, modelled as an
association list with unique keys in insertion order. -/
abbrev SequenceMap := List (String × SequenceSpec)

/-- Python `dict.get`: first binding for the key, if any. -/
def seqLookup (seqs : SequenceMap) (k : String) : Option SequenceSpec :=
  (seqs.find? (fun p => p.1 == k)).map (·.2)

/-! ## `ExportRunner.can_skip_recompression` (C1) -/

/-- Modelled from the spec: `OiioAdapter.get_compression_from_probe` is
called by the runner but its definition is not under `src/` (the adapter
file only defines probing helpers).  Per the spec the probe's metadata
includes "container-level attributes including compression", so the
stored compression name of sub-image `si` is the value of its
`compression` attribute. -/
def get_compression_from_probe (probe : FileProbe) (si : Nat) : Option String :=
  (probe.subimages[si]?.bind fun sub => sub.attributes.get_by_name "compression").map
    (·.value)

/-- Normalisation applied to the probed compression name:
`source_compression.lower() if source_compression else "none"`
(`None` and the empty string are falsy in Python). -/
def normalizeSourceCompression (c : Option String) : String :=
  match c with
  | none => "none"
  | some s => if s = "" then "none" else pyLower s

/-- Python `set(a) == set(b)` on string lists: mutual containment,
kept as a structurally computable check. -/
def listSetEq (a b : List String) : Bool :=
  a.all (fun x => x ∈ b) && b.all (fun x => x ∈ a)

/-- The deduplicated source-sequence ids of the output channels,
modelling `set(ch.source.sequence_id for ch in export_spec.output_channels)`
(only its cardinality and, when it is a singleton, its sole element are
consumed). -/
def distinctSourceIds (es : ExportSpec) : List String :=
  (es.output_channels.map (fun ch => ch.source.sequence_id)).dedup

/-- `ExportRunner.can_skip_recompression` (`export_runner.py:91-179`):
the six-check direct-copy eligibility test, returning
`(can_skip, reason)`. -/
def can_skip_recompression (export_spec : ExportSpec) (sequences : SequenceMap)
    (compression_policy : String) : Bool × String :=
  if compression_policy = "always" then
    (false, "Compression policy: always recompress")
  else
    match distinctSourceIds export_spec with
    | [seq_id] =>
      match seqLookup sequences seq_id with
      | none => (false, "Source sequence " ++ quoted seq_id ++ " not found or not probed")
      | some source_seq =>
        match source_seq.static_probe with
        | none => (false, "Source sequence " ++ quoted seq_id ++ " not found or not probed")
        | some probe =>
          match probe.main_subimage with
          | none => (false, "Source file has no main subimage")
          | some source_subimage =>
            let source_channel_names := source_subimage.channels.map (fun ch => ch.name)
            let output_channel_names :=
              export_spec.output_channels.map (fun ch => ch.source.channel_name)
            if ¬ listSetEq source_channel_names output_channel_names then
              (false, "Output is subset/superset of source channels")
            else
              let source_comp_normalized :=
                normalizeSourceCompression (get_compression_from_probe probe 0)
              let target_comp_normalized := pyLower export_spec.compression
              if source_comp_normalized ≠ target_comp_normalized then
                (false, "Compression mismatch: " ++ source_comp_normalized ++ " vs " ++
                  target_comp_normalized)
              else
                let source_attrs := source_subimage.attributes
                let output_attrs := export_spec.output_attributes
                if source_attrs.attributes.length ≠ output_attrs.attributes.length then
                  (false, "Attribute count mismatch: " ++ toString source_attrs.attributes.length
                    ++ " vs " ++ toString output_attrs.attributes.length)
                else
                  match output_attrs.attributes.find?
                      (fun a => (source_attrs.get_by_name a.name).isNone) with
                  | some bad =>
                    (false, "Attribute " ++ quoted bad.name ++ " modified or added")
                  | none =>
                    if export_spec.output_channels.any (fun ch => ch.override_format.isSome) then
                      (false, "Output channel format override present")
                    else
                      (true, "Can skip recompression: identical copy possible")
    | ids => (false, "Multiple source sequences (" ++ toString ids.length ++ ")")

/-- The spec's seven eligibility checks (§4.2), written from the spec's
own words as one proposition, to be compared with the source function:
policy not `always`; exactly one distinct source sequence; that sequence
present and probed with a primary sub-image; output source-channel set
exactly the source channel set; case-insensitive compression match;
attribute count match with every output attribute name present in the
source (values not compared); no format overrides. -/
def AllChecksPass (es : ExportSpec) (seqs : SequenceMap) (pol : String) : Prop :=
  pol ≠ "always" ∧
  ∃ id seq probe sub,
    distinctSourceIds es = [id] ∧
    seqLookup seqs id = some seq ∧
    seq.static_probe = some probe ∧
    probe.main_subimage = some sub ∧
    (∀ c, c ∈ sub.channels.map (fun ch => ch.name) ↔
      c ∈ es.output_channels.map (fun ch => ch.source.channel_name)) ∧
    normalizeSourceCompression (get_compression_from_probe probe 0) = pyLower es.compression ∧
    sub.attributes.attributes.length = es.output_attributes.attributes.length ∧
    (∀ a ∈ es.output_attributes.attributes, (sub.attributes.get_by_name a.name).isSome) ∧
    (∀ ch ∈ es.output_channels, ch.override_format = none)

/-- Replace every output-attribute value (names, counts and order kept):
used to state that `can_skip_recompression` never compares attribute
values. -/
def mapOutputAttrValues (es : ExportSpec) (f : String → String) : ExportSpec :=
  { es with output_attributes :=
      ⟨es.output_attributes.attributes.map (fun a => { a with value := f a.value })⟩ }

/-! ## `ExportRunner._resolve_frame_list` (C2) -/

/-- Python `sorted(set(l))` on ints: the distinct elements in ascending
order. -/
def pySortedSet (l : List Int) : List Int :=
  l.dedup.insertionSort (· ≤ ·)

/-- `ExportRunner._resolve_frame_list` (`export_runner.py:503-526`):
union of all sequences' frames, deduplicated and sorted, then filtered
by the optional inclusive frame range. -/
def resolve_frame_list (export_spec : ExportSpec) (sequences : SequenceMap) : List Int :=
  if sequences.isEmpty then []
  else
    let all_frames := (sequences.map (fun p => p.2.frames)).flatten
    if all_frames.isEmpty then []
    else
      let sorted := pySortedSet all_frames
      match export_spec.frame_range with
      | none => sorted
      | some (start_frame, end_frame) =>
        sorted.filter (fun f => decide (start_frame ≤ f) && decide (f ≤ end_frame))

/-! ## Binary64 model and `AtomicProgress` (C7, C10)

`AtomicProgress.increment` computes `int((completed / total) * 100)`.
In Python `/` on ints is true division producing an IEEE-754 binary64
float, `* 100` is a float multiplication, and `int(...)` truncates, so
the percentage is modelled with an explicit correctly-rounded binary64
model over `ℚ`. -/

/-- Does `2 ^ e ≤ a / b` hold (`b > 0`), by integer arithmetic? -/
def pow2le (e : ℤ) (a b : Nat) : Bool :=
  if 0 ≤ e then decide (b * 2 ^ e.toNat ≤ a) else decide (b ≤ a * 2 ^ (-e).toNat)

/-- Largest `e` at most the start value with `2 ^ e ≤ a / b`, searching
downward with fuel. -/
def findExpDown : Nat → ℤ → Nat → Nat → Option ℤ
  | 0, _, _, _ => none
  | fuel + 1, e, a, b => if pow2le e a b then some e else findExpDown fuel (e - 1) a b

/-- Round `A / B` (`B > 0`) to the nearest integer, ties to even (the
IEEE-754 default rounding). -/
def rneDiv (A B : Nat) : Nat :=
  let m0 := A / B
  let r := A % B
  if 2 * r < B then m0
  else if B < 2 * r then m0 + 1
  else if m0 % 2 = 0 then m0 else m0 + 1

/-- The binary64 (IEEE double) value nearest the non-negative fraction
`a / b`, as a dyadic fraction (numerator, power-of-two denominator):
the 53-bit scaled mantissa rounded to nearest, ties to even.  Normal
range only: values below `2 ^ (-1200)` underflow to `0` (true doubles
go subnormal below `2 ^ (-1022)` and flush to zero below `2 ^ (-1075)`;
the runner's ratios never reach that regime) and the binade search
starts at `2 ^ 200`, which covers every quotient and percentage the
runner computes. -/
def flPair (a b : Nat) : Nat × Nat :=
  if a = 0 ∨ b = 0 then (0, 1)
  else
    match findExpDown 1401 200 a b with
    | none => (0, 1)
    | some e =>
      if e ≤ 52 then (rneDiv (a * 2 ^ (52 - e).toNat) b, 2 ^ (52 - e).toNat)
      else (rneDiv a (b * 2 ^ (e - 52).toNat) * 2 ^ (e - 52).toNat, 1)

/-- The rational value of a dyadic fraction. -/
def pairVal (p : Nat × Nat) : ℚ := (p.1 : ℚ) / (p.2 : ℚ)

/-- `int((completed / total) * 100)` exactly as Python evaluates it:
binary64 division, binary64 multiplication by 100, truncation toward
zero (the value is non-negative, so truncation is the floor);
`none` models the `ZeroDivisionError` raised when `total = 0`. -/
def pyPercentInt (completed total : Nat) : Option ℤ :=
  if total = 0 then none
  else
    let f1 := flPair completed total
    let f2 := flPair (100 * f1.1) f1.2
    some ((f2.1 / f2.2 : Nat) : ℤ)

/-- `AtomicProgress` (`export_runner.py:38-65`): the state guarded by
`self.lock`; every call below is one whole critical section, so any
interleaving of concurrent calls is some sequence of these steps. -/
structure AtomicProgress where
  completed : Nat
  total : Nat
  last_logged_frame : Int
deriving DecidableEq, Repr

/-- `AtomicProgress.__init__(total)`. -/
def AtomicProgress.init (total : Nat) : AtomicProgress :=
  { completed := 0, total := total, last_logged_frame := -1 }

/-- `AtomicProgress.increment`: add one, remember the frame, return the
current percentage (`none` = `ZeroDivisionError`). -/
def AtomicProgress.increment (p : AtomicProgress) (frame_num : Int) :
    Option (AtomicProgress × ℤ) :=
  let p' : AtomicProgress :=
    { p with completed := p.completed + 1, last_logged_frame := frame_num }
  (pyPercentInt p'.completed p'.total).map (fun pct => (p', pct))

/-- `AtomicProgress.get_percent` (`none` = `ZeroDivisionError`). -/
def AtomicProgress.get_percent (p : AtomicProgress) : Option ℤ :=
  pyPercentInt p.completed p.total

/-! ## `_calculate_optimal_channel_workers` and the read schedule (C8) -/

/-- `ExportRunner._calculate_optimal_channel_workers`
(`export_runner.py:741-779`). -/
def calculate_optimal_channel_workers (num_channels : Nat)
    (frame_resolution : Option (Nat × Nat)) : Nat :=
  let wh := frame_resolution.getD (2048, 1080)
  let pixels := wh.1 * wh.2
  if pixels > 25000000 then 1
  else if pixels > 10000000 then min 2 num_channels
  else if pixels > 5000000 then min 3 num_channels
  else min 4 num_channels

/-- The spec's per-channel worker cap as a function of the pixel count
(§4.6), written from the spec's words. -/
def specChannelCap (pixels : Nat) : Nat :=
  if pixels > 25000000 then 1
  else if pixels > 10000000 then 2
  else if pixels > 5000000 then 3
  else 4

/-- How `_read_channels_parallel_from_file` schedules one channel
group. -/
inductive ReadMode where
  | empty
  | direct
  | sequential
  | pooled (workers : Nat)
deriving DecidableEq, Repr

/-- The scheduling decision of `_read_channels_parallel_from_file`
(`export_runner.py:652-739`): empty group — nothing to read; exactly one
channel — read directly with no pool; otherwise compute the worker count
and read sequentially when it is ≤ 1, else through a
`ThreadPoolExecutor` with that many workers. -/
def read_channels_schedule (channel_count : Nat)
    (frame_resolution : Option (Nat × Nat)) : ReadMode :=
  if channel_count = 0 then .empty
  else if channel_count = 1 then .direct
  else
    let num_workers := calculate_optimal_channel_workers channel_count frame_resolution
    if num_workers ≤ 1 then .sequential
    else .pooled num_workers

/-! ## Trace model of `ExportRunner.run` and the two export paths
(C3, C4, C5, C6, C10)

The orchestration code is embedded as pure functions producing a list
of observable events, against an environment carrying everything the
code observes from outside: the outcome of the validation gate, the
per-frame success oracles, the stop flag (indexed by the order of the
driving thread's reads of `stop_requested`), the values of the flag
each pool worker observes, and the order in which `as_completed`
yields the submitted futures.  Worker events are linearized at the
drain step that collects the frame's future. -/

/-- The calls into the image codec library the runner makes. -/
inductive OiioCall where
  | openInput
  | readImage
  | closeInput
  | createOutput
  | openOutput
  | writeImage
  | copyImage
  | closeOutput
deriving DecidableEq, Repr

/-- Is the call one of the image-writing entry points (create output
handle, open for write, write pixel buffer, copy encoded stream, close
output)? -/
def OiioCall.isWriteCall : OiioCall → Bool
  | .createOutput => true
  | .openOutput => true
  | .writeImage => true
  | .copyImage => true
  | .closeOutput => true
  | _ => false

/-- Observable steps of one export run. -/
inductive Ev where
  | mkdirOutputDir
  | validateGate
  | trackerCreated (total : Nat)
  | oiio (call : OiioCall) (locked : Bool)
  | copiedFrame (f : Int)
  | switchToParallel (frames : List Int)
  | submitTask (f : Int)
  | startFrame (f : Int)
  | shutdownPool
  | progressEmit (pct : ℤ)
  | finished (ok : Bool) (msg : String)
deriving DecidableEq, Repr

/-- Where a failing `_export_frame` raises: before `_write_exr` is
entered (stop checks, assemble failure, the pre-lock checks of
`_write_exr` — no write-library call is made), or inside
`_write_exr`'s `with ExportRunner._oiio_lock` block when
`ImageOutput.create` returns no handle, when `out.open` fails, or when
`out.write_image` fails. -/
inductive FrameFailure where
  | beforeWrite
  | createFailed
  | openFailed
  | writeFailed
deriving DecidableEq, Repr

/-- The environment a run executes against. -/
structure RunEnv where
  mkdirOk : Bool
  validationErrors : Nat
  copyOk : Int → Bool
  frameOk : Int → Bool
  stop : Nat → Bool
  workerStop : Int → Bool
  workerStopAtCatch : Int → Bool
  completionOrder : List Int
  readsPerFrame : Nat
  failMode : Int → FrameFailure

/-- The codec calls of `_export_frame_direct_copy`
(`export_runner.py:330-388`) on its success path, in source order:
open the source, create the output, open it with the source spec, copy
the encoded stream, close both.  None of them takes
`ExportRunner._oiio_lock`. -/
def directCopyFrameCalls : List Ev :=
  [.oiio .openInput false, .oiio .createOutput false, .oiio .openOutput false,
   .oiio .copyImage false, .oiio .closeInput false, .oiio .closeOutput false]

/-- The codec calls of `_write_exr` (`export_runner.py:841-913`) on
its success path: create, open for write, write the pixel buffer and
close, all inside `with ExportRunner._oiio_lock` (at line 903 `out` is
set to `None`, so the `finally` block closes nothing). -/
def writeExrCalls : List Ev :=
  [.oiio .createOutput true, .oiio .openOutput true, .oiio .writeImage true,
   .oiio .closeOutput true]

/-- The codec calls of `_write_exr` on its failure paths.  When
`ImageOutput.create` returns no handle the `finally` block
(`export_runner.py:907-913`) sees a falsy `out` and closes nothing.
When `out.open` or `out.write_image` fails, the raised exception leaves
the `with ExportRunner._oiio_lock` block — releasing the lock — before
the `finally` block runs, so its `out.close()` is executed WITHOUT the
lock. -/
def writeExrFailCalls : FrameFailure → List Ev
  | .beforeWrite => []
  | .createFailed => [.oiio .createOutput true]
  | .openFailed =>
    [.oiio .createOutput true, .oiio .openOutput true, .oiio .closeOutput false]
  | .writeFailed =>
    [.oiio .createOutput true, .oiio .openOutput true, .oiio .writeImage true,
     .oiio .closeOutput false]

/-- The codec calls of a successful `_export_frame`: the channel reads
(`_read_channel_from_file`, one fresh unlocked input handle each), then
the serialized write. -/
def exportFrameCalls (reads : Nat) : List Ev :=
  (List.replicate reads
    [Ev.oiio .openInput false, Ev.oiio .readImage false, Ev.oiio .closeInput false]).flatten
    ++ writeExrCalls

/-- The codec calls of a failing `_export_frame`: when the failure
precedes `_write_exr` no write-library call happens (any reads of a
frame abandoned before the write are read-only calls); when `_write_exr`
is reached, all channel reads happened first and the write calls of the
chosen failure path follow. -/
def exportFrameFailCalls (reads : Nat) (m : FrameFailure) : List Ev :=
  match m with
  | .beforeWrite => []
  | _ =>
    (List.replicate reads
      [Ev.oiio .openInput false, Ev.oiio .readImage false, Ev.oiio .closeInput false]).flatten
      ++ writeExrFailCalls m

/-- `_export_frame_wrapper` (`export_runner.py:467-483`): nothing
happens if the worker observed the stop flag at entry; an exception
from `_export_frame` is suppressed when the flag is observed in the
handler.  Returns the worker's events and whether the task re-raised. -/
def frameWrapper (env : RunEnv) (f : Int) : List Ev × Bool :=
  if env.workerStop f then ([], false)
  else if env.frameOk f then (Ev.startFrame f :: exportFrameCalls env.readsPerFrame, false)
  else if env.workerStopAtCatch f then
    (Ev.startFrame f :: exportFrameFailCalls env.readsPerFrame (env.failMode f), false)
  else (Ev.startFrame f :: exportFrameFailCalls env.readsPerFrame (env.failMode f), true)

/-- The completion-drain loop of `_export_frames_parallel`
(`export_runner.py:420-451`): check the stop flag, collect the next
completed future, re-check the flag on an exception, shut the pool down
on stop or failure, else count the success.  Arguments: remaining
completion order, next stop-read index, completed count so far; result:
events and next stop-read index. -/
def parallelDrain (env : RunEnv) (total : Nat) : List Int → Nat → Nat → List Ev × Nat
  | [], t, _ => ([Ev.finished true "Export completed successfully!"], t)
  | f :: rest, t, completed =>
    if env.stop t then
      ([Ev.shutdownPool, Ev.finished false "Export stopped by user"], t + 1)
    else
      let wr := frameWrapper env f
      if wr.2 then
        if env.stop (t + 1) then
          (wr.1 ++ [Ev.shutdownPool, Ev.finished false "Export stopped by user"], t + 2)
        else
          (wr.1 ++ [Ev.shutdownPool,
            Ev.finished false ("Export failed at frame " ++ toString f)], t + 2)
      else
        match pyPercentInt (completed + 1) total with
        | some pct =>
          let res := parallelDrain env total rest (t + 1) (completed + 1)
          (wr.1 ++ Ev.progressEmit pct :: res.1, res.2)
        | none => (wr.1 ++ [Ev.finished false "Export failed: division by zero"], t + 1)

/-- `_export_frames_parallel` (`export_runner.py:390-465`): create the
shared tracker, submit every frame eagerly, drain completions. -/
def exportFramesParallel (env : RunEnv) (frame_list : List Int) (t : Nat) : List Ev × Nat :=
  let res := parallelDrain env frame_list.length env.completionOrder t 0
  (Ev.trackerCreated frame_list.length :: frame_list.map Ev.submitTask ++ res.1, res.2)

/-- The sequential loop of `_export_frames_direct_copy`
(`export_runner.py:294-315`): stop flag at the top of each iteration;
on a copy failure, hand every resolved frame `≥` the failed one to the
parallel exporter and return.  `orig` is the full resolved list the
Python closure holds. -/
def directCopyLoop (env : RunEnv) (orig : List Int) : List Int → Nat → Nat → List Ev × Nat
  | [], t, _ => ([Ev.finished true "Export completed successfully!"], t)
  | f :: rest, t, completed =>
    if env.stop t then ([Ev.finished false "Export stopped by user"], t + 1)
    else if env.copyOk f then
      match pyPercentInt (completed + 1) orig.length with
      | some pct =>
        let res := directCopyLoop env orig rest (t + 1) (completed + 1)
        (directCopyFrameCalls ++ Ev.copiedFrame f :: Ev.progressEmit pct :: res.1, res.2)
      | none => ([Ev.finished false "Export failed: division by zero"], t + 1)
    else
      let remaining := orig.filter (fun x => decide (f ≤ x))
      let res := exportFramesParallel env remaining (t + 1)
      (Ev.switchToParallel remaining :: res.1, res.2)

/-- `_export_frames_direct_copy` (`export_runner.py:269-328`). -/
def exportFramesDirectCopy (env : RunEnv) (frame_list : List Int) (t : Nat) : List Ev × Nat :=
  let res := directCopyLoop env frame_list frame_list t 0
  (Ev.trackerCreated frame_list.length :: res.1, res.2)

/-- `ExportRunner.run` (`export_runner.py:181-267`): attempt to create
the output directory, run the validation gate, resolve the frame list,
pick the strategy, drive the chosen path.  Note the directory creation
precedes the validation gate in the source. -/
def runModel (es : ExportSpec) (seqs : SequenceMap) (pol : String) (env : RunEnv) :
    List Ev × Nat :=
  if ¬ env.mkdirOk then
    ([Ev.mkdirOutputDir, Ev.finished false "Could not create output directory"], 0)
  else if env.validationErrors ≠ 0 then
    ([Ev.mkdirOutputDir, Ev.validateGate,
      Ev.finished false
        ("Export blocked: " ++ toString env.validationErrors ++ " validation errors")], 0)
  else
    let frame_list := resolve_frame_list es seqs
    if frame_list.isEmpty then
      ([Ev.mkdirOutputDir, Ev.validateGate, Ev.finished false "No frames to export"], 0)
    else if (can_skip_recompression es seqs pol).1 then
      let res := exportFramesDirectCopy env frame_list 0
      (Ev.mkdirOutputDir :: Ev.validateGate :: res.1, res.2)
    else
      let res := exportFramesParallel env frame_list 0
      (Ev.mkdirOutputDir :: Ev.validateGate :: res.1, res.2)

/-! ## Filename token grammar (C9)

`SequencePathPattern.format` / `ExportRunner._format_filename`
substitute the frame-number token; `_pattern_to_regex`
(`sequence.py:257-270`) turns a pattern into an anchored regex whose
group 1 is read back by `_process_frames_batch` with
`int(match.group(1))`.  The two `re.sub` calls, `re.escape` (Python
3.7+ semantics: `#` is in the escaped special set, `%` is not),
`re.compile` and the matching of the restricted regexes these functions
produce are embedded directly. -/

/-- ASCII decimal digit (regex `\d` on these inputs). -/
def isDig (c : Char) : Bool := decide ('0' ≤ c) && decide (c ≤ '9')

/-- Numeric value of a digit character. -/
def digitVal (c : Char) : Nat := c.toNat - 48

/-- Accumulator pass of Python `int` on a digit string. -/
def parseDecAux : Nat → List Char → Nat
  | acc, [] => acc
  | acc, c :: cs => parseDecAux (acc * 10 + digitVal c) cs

/-- Python `int` on a non-empty digit string. -/
def parseDec (s : List Char) : Nat := parseDecAux 0 s

/-- Fuel-driven digit expansion (structural recursion so that the
kernel can evaluate it; the fuel never runs out when it starts at least
at the digit count). -/
def natDigitsGo : Nat → Nat → List Char
  | 0, _ => []
  | fuel + 1, n =>
    if n < 10 then [Char.ofNat (48 + n)]
    else natDigitsGo fuel (n / 10) ++ [Char.ofNat (48 + n % 10)]

/-- Decimal digits of a non-negative integer (`str(n)`). -/
def natDigits (n : Nat) : List Char := natDigitsGo (n + 1) n

/-- Python `str.zfill` on an unsigned digit string: left-pad with
zeros to the given width. -/
def zfill (w : Nat) (s : List Char) : List Char :=
  List.replicate (w - s.length) '0' ++ s

/-- Fuel-driven scanner for `re.sub(r"%0(\d+)d", repl, s)` (structural
recursion so that the kernel can evaluate it; every recursive call
shortens the text, so fuel `length + 1` never runs out). -/
def goPrintf (repl : Nat → List Char) : Nat → List Char → List Char
  | 0, _ => []
  | _ + 1, [] => []
  | fuel + 1, '%' :: '0' :: cs2 =>
    if (cs2.takeWhile isDig).isEmpty then '%' :: goPrintf repl fuel ('0' :: cs2)
    else
      match cs2.dropWhile isDig with
      | 'd' :: rest2 => repl (parseDec (cs2.takeWhile isDig)) ++ goPrintf repl fuel rest2
      | _ => '%' :: goPrintf repl fuel ('0' :: cs2)
  | fuel + 1, c :: cs => c :: goPrintf repl fuel cs

/-- One pass of `re.sub(r"%0(\d+)d", repl, s)`: find each leftmost
occurrence of `%0`, one or more digits, `d`; replace it by `repl`
applied to `int` of the digits; scanning resumes after the match and
replacement text is not rescanned. -/
def subPrintfTok (repl : Nat → List Char) (l : List Char) : List Char :=
  goPrintf repl (l.length + 1) l

/-- Fuel-driven scanner for `re.sub(r"#+", repl, s)`. -/
def goHash (repl : Nat → List Char) : Nat → List Char → List Char
  | 0, _ => []
  | _ + 1, [] => []
  | fuel + 1, c :: cs =>
    if c = '#' then
      repl ((cs.takeWhile (· = '#')).length + 1) ++
        goHash repl fuel (cs.dropWhile (· = '#'))
    else c :: goHash repl fuel cs

/-- One pass of `re.sub(r"#+", repl, s)`: replace each maximal run of
`#` by `repl` applied to the run length. -/
def subHashTok (repl : Nat → List Char) (l : List Char) : List Char :=
  goHash repl (l.length + 1) l

/-- `SequencePathPattern.format` (`types.py:150-161`) and
`ExportRunner._format_filename` (`export_runner.py:559-565`): the
`%0Nd` substitution, then the `#`-run substitution, each inserting the
zero-padded frame number (frame numbers are non-negative by the
data-model invariant). -/
def formatPattern (pattern : List Char) (frame : Nat) : List Char :=
  subHashTok (fun w => zfill w (natDigits frame))
    (subPrintfTok (fun w => zfill w (natDigits frame)) pattern)

/-- Python 3.7+ `re.escape` of one character: escape exactly the
characters of the special set
`()[]{}?*+-|^$\.&~#`, space, tab, LF, CR, VT, FF (`#` is escaped, `%`
is not). -/
def pyReEscapeChar (c : Char) : List Char :=
  if c.toNat ∈ [40, 41, 91, 93, 123, 125, 63, 42, 43, 45, 124, 94, 36, 92, 46, 38,
      126, 35, 32, 9, 10, 13, 11, 12] then ['\\', c]
  else [c]

/-- Python 3.7+ `re.escape`. -/
def pyReEscape (s : List Char) : List Char := s.flatMap pyReEscapeChar

/-- The replacement fragment both substitutions of `_pattern_to_regex`
insert. -/
def groupFrag : List Char := ['(', '\\', 'd', '+', ')']

/-- `_pattern_to_regex` (`sequence.py:257-270`): escape the pattern,
replace `%0Nd` occurrences by the capture fragment, replace `#` runs
(after escaping, each `#` stands alone between backslashes, so each
single `#` is a run) by the capture fragment, and anchor. -/
def pattern_to_regex (pattern : List Char) : List Char :=
  let e1 := pyReEscape pattern
  let e2 := subPrintfTok (fun _ => groupFrag) e1
  let e3 := subHashTok (fun _ => groupFrag) e2
  '^' :: e3 ++ ['$']

/-- The fragment of Python regexes `_pattern_to_regex` can emit: a
literal character, the digit class `\d`, greedy `\d+`, or the capture
group `(\d+)`. -/
inductive RItem where
  | lit (c : Char)
  | digitOne
  | digitsPlus
  | group
deriving DecidableEq, Repr

/-- Parse the body of an anchored regex produced by
`_pattern_to_regex` into items; `none` models `re.error` from
`re.compile` (e.g. the unmatched parenthesis these patterns produce for
`#`-style tokens). -/
def parseRegexBody : List Char → Option (List RItem)
  | [] => some []
  | '(' :: '\\' :: 'd' :: '+' :: ')' :: rest => (parseRegexBody rest).map (RItem.group :: ·)
  | '(' :: _ => none
  | ')' :: _ => none
  | '\\' :: 'd' :: '+' :: rest => (parseRegexBody rest).map (RItem.digitsPlus :: ·)
  | '\\' :: 'd' :: rest => (parseRegexBody rest).map (RItem.digitOne :: ·)
  | '\\' :: c :: rest => (parseRegexBody rest).map (RItem.lit c :: ·)
  | ['\\'] => none
  | '^' :: _ => none
  | '$' :: _ => none
  | c :: rest => (parseRegexBody rest).map (RItem.lit c :: ·)

/-- `re.compile` of an anchored `_pattern_to_regex` result: strip the
`^...$` anchors and parse the body. -/
def compileAnchored (s : List Char) : Option (List RItem) :=
  match s with
  | '^' :: rest =>
    match rest.getLast? with
    | some '$' => parseRegexBody rest.dropLast
    | _ => none
  | _ => none

/-- Greedy matching of `\d+` (capturing when `capture` is set): try the
candidate lengths `k, k-1, ..., 1` against the continuation `m`. -/
def tryLens (m : List Char → Option (Option (List Char))) (t : List Char) :
    Nat → Bool → Option (Option (List Char))
  | 0, _ => none
  | k + 1, capture =>
    match m (t.drop (k + 1)) with
    | some g => if capture then some (some (t.take (k + 1))) else some g
    | none => tryLens m t k capture

/-- Anchored matching of an item list against a filename, returning
`some g` on a match, where `g` is group 1's captured digit string when
a group was encountered. -/
def matchItems : List RItem → List Char → Option (Option (List Char))
  | [], t => if t.isEmpty then some none else none
  | .lit c :: rest, t =>
    match t with
    | x :: xs => if x = c then matchItems rest xs else none
    | [] => none
  | .digitOne :: rest, t =>
    match t with
    | x :: xs => if isDig x then matchItems rest xs else none
    | [] => none
  | .digitsPlus :: rest, t =>
    tryLens (fun s => matchItems rest s) t ((t.takeWhile isDig).length) false
  | .group :: rest, t =>
    tryLens (fun s => matchItems rest s) t ((t.takeWhile isDig).length) true

/-- `_process_frames_batch` (`sequence.py:104-132`) on one filename:
compile the pattern's regex, match, read `int(match.group(1))`; any
failure (regex compile error, no match, no group) yields no frame. -/
def parseFrameViaPattern (pattern : List Char) (filename : List Char) : Option Nat :=
  match compileAnchored (pattern_to_regex pattern) with
  | none => none
  | some items =>
    match matchItems items filename with
    | some (some g) => some (parseDec g)
    | _ => none

/-! ## Statement gadgets -/

/-- Literal regex items for a character list. -/
def litItems (X : List Char) : List RItem := X.map RItem.lit

/-- Number of strategy-switch events in a trace. -/
def switchCount (tr : List Ev) : Nat :=
  (tr.filter fun e => match e with | .switchToParallel _ => true | _ => false).length

/-- The events of a successful direct-copy prefix: per frame the codec
calls, the copy record and the progress emission, with the running
completed count. -/
def directCopiesTrace (total : Nat) : List Int → Nat → List Ev
  | [], _ => []
  | x :: xs, c =>
    directCopyFrameCalls ++ Ev.copiedFrame x ::
      Ev.progressEmit ((pyPercentInt (c + 1) total).getD 0) :: directCopiesTrace total xs (c + 1)

/-! ## Concrete fixtures for witnesses and counterexamples -/

/-- A probed main sub-image: channels R, G, B, A at 1920x1080, stored
compression `zip`, one further attribute. -/
def exSub : SubImageProbe :=
  { spec := { width := 1920, height := 1080, nchannels := 4,
              channelnames := ["R", "G", "B", "A"] }
    channels := [⟨"R", ⟨"half", ""⟩, 0⟩, ⟨"G", ⟨"half", ""⟩, 0⟩,
                 ⟨"B", ⟨"half", ""⟩, 0⟩, ⟨"A", ⟨"half", ""⟩, 0⟩]
    attributes := ⟨[⟨"compression", "string", "zip"⟩, ⟨"expTime", "float", "0.02"⟩]⟩ }

/-- A probe holding `exSub` as its only sub-image. -/
def exProbe : FileProbe := { path := "a.0001.exr", subimages := [exSub] }

/-- Sequence A: frames 1, 2, 3, probed. -/
def exSeqA : SequenceSpec :=
  { id := "seqA", display_name := "A", pattern := ⟨"a.%04d.exr".toList⟩,
    source_dir := "src", frames := [1, 2, 3], static_probe := some exProbe }

/-- Sequence B: frames 2, 3, 4. -/
def exSeqB : SequenceSpec :=
  { id := "seqB", display_name := "B", pattern := ⟨"b.%04d.exr".toList⟩,
    source_dir := "src", frames := [2, 3, 4], static_probe := none }

/-- Sequence map with A only. -/
def exSeqsA : SequenceMap := [("seqA", exSeqA)]

/-- Sequence map with A and B. -/
def exSeqsAB : SequenceMap := [("seqA", exSeqA), ("seqB", exSeqB)]

/-- An export spec taking all four channels from sequence A, `ZIP`
target compression (case differs from the stored name), the source's
attribute names, no overrides, no frame range. -/
def exSpec : ExportSpec :=
  { output_dir := "out", filename_pattern := "beauty.%04d.exr".toList,
    output_channels :=
      [{ output_name := "R", source := ⟨"seqA", "R", 0⟩ },
       { output_name := "G", source := ⟨"seqA", "G", 0⟩ },
       { output_name := "B", source := ⟨"seqA", "B", 0⟩ },
       { output_name := "A", source := ⟨"seqA", "A", 0⟩ }]
    output_attributes := ⟨[⟨"compression", "string", "zip"⟩, ⟨"expTime", "float", "0.02"⟩]⟩
    compression := "ZIP", compression_policy := "skip", frame_range := none }

/-- `exSpec` with the inclusive frame range `[2, 3]`. -/
def exSpecRange23 : ExportSpec := { exSpec with frame_range := some (2, 3) }

/-- An environment where everything succeeds and stop is never
requested. -/
def envOkAll : RunEnv :=
  { mkdirOk := true, validationErrors := 0,
    copyOk := fun _ => true, frameOk := fun _ => true,
    stop := fun _ => false, workerStop := fun _ => false,
    workerStopAtCatch := fun _ => false, completionOrder := [1, 2, 3],
    readsPerFrame := 4, failMode := fun _ => .beforeWrite }

/-- `envOkAll` with one validation ERROR. -/
def envValErr : RunEnv := { envOkAll with validationErrors := 1 }

/-- `envOkAll` with the stop flag already set. -/
def envStopNow : RunEnv := { envOkAll with stop := fun _ => true }

/-- `envOkAll` where the direct copy of frame 2 fails. -/
def envCopyFail2 : RunEnv :=
  { envOkAll with copyOk := fun f => decide (f < 2), completionOrder := [2, 3] }

/-- `envOkAll` where frame 1 reaches `_write_exr` and its `out.open`
fails, sending `_write_exr` through the unlocked `finally` close. -/
def envOpenFail1 : RunEnv :=
  { envOkAll with
    frameOk := fun f => decide (f ≠ 1)
    failMode := fun _ => FrameFailure.openFailed
    completionOrder := [1] }

/-- The hash-style pattern used by the C9 counterexample. -/
def exHashPattern : List Char := "shot.####.exr".toList

/-! # Theorems -/

/-- C8: for every channel group of two or more channels from one file,
the channel-read worker count equals `min(cap, channelsInGroup)` where
`cap` is 1 above 25M pixels, 2 above 10M, 3 above 5M and 4 otherwise; a
single-channel group is read directly with no pool; a 30M-pixel frame
with 4 channels uses exactly 1 worker (sequential) and a 1M-pixel frame
with 4 channels uses 4 pooled workers. -/
theorem C8_channel_read_workers :
    (∀ n w h, 2 ≤ n →
      calculate_optimal_channel_workers n (some (w, h)) = min (specChannelCap (w * h)) n) ∧
    (∀ res, read_channels_schedule 1 res = .direct) ∧
    calculate_optimal_channel_workers 4 (some (6000, 5000)) = 1 ∧
    read_channels_schedule 4 (some (6000, 5000)) = .sequential ∧
    calculate_optimal_channel_workers 4 (some (1000, 1000)) = 4 ∧
    read_channels_schedule 4 (some (1000, 1000)) = .pooled 4 := by
  refine ⟨?_, ?_, by decide, by decide, by decide, by decide⟩
  · intro n w h hn
    simp only [calculate_optimal_channel_workers, specChannelCap, Option.getD_some]
    split_ifs <;> omega
  · intro res
    simp [read_channels_schedule]

/-- C8 witness: a 6M-pixel frame with a 2-channel group, through the
general worker-count equation. -/
theorem C8_channel_read_workers_witness :
    calculate_optimal_channel_workers 2 (some (3000, 2000)) = min (specChannelCap 6000000) 2 := by
  have h := C8_channel_read_workers.1 2 3000 2000 (by norm_num)
  simpa using h

theorem pySortedSet_sorted (l : List Int) : (pySortedSet l).Sorted (· < ·) := by
  have hs : (pySortedSet l).Sorted (· ≤ ·) := List.sorted_insertionSort _ _
  have hn : (pySortedSet l).Nodup :=
    (List.perm_insertionSort _ _).nodup_iff.mpr (List.nodup_dedup l)
  exact hs.lt_of_le hn

theorem pySortedSet_mem (l : List Int) (x : Int) : x ∈ pySortedSet l ↔ x ∈ l := by
  unfold pySortedSet
  rw [(List.perm_insertionSort _ _).mem_iff, List.mem_dedup]

/-- C2: the resolved frame list is strictly ascending and contains
exactly the frames in some sequence that pass the optional inclusive
range filter (so sequences `[1,2,3]` and `[2,3,4]` give `[1,2,3,4]`,
and the filter `[2,3]` gives `[2,3]`); when it is empty the run
finishes unsuccessfully with `"No frames to export"`. -/
theorem C2_frame_range_resolver :
    (∀ es seqs, (resolve_frame_list es seqs).Sorted (· < ·)) ∧
    (∀ es seqs f, f ∈ resolve_frame_list es seqs ↔
      ((∃ p ∈ seqs, f ∈ p.2.frames) ∧
        (∀ s e, es.frame_range = some (s, e) → s ≤ f ∧ f ≤ e))) ∧
    resolve_frame_list exSpec exSeqsAB = [1, 2, 3, 4] ∧
    resolve_frame_list exSpecRange23 exSeqsAB = [2, 3] ∧
    (∀ es seqs pol env, env.mkdirOk = true → env.validationErrors = 0 →
      resolve_frame_list es seqs = [] →
      (runModel es seqs pol env).1 =
        [Ev.mkdirOutputDir, Ev.validateGate, Ev.finished false "No frames to export"]) := by
  refine ⟨?_, ?_, by decide, by decide, ?_⟩
  · intro es seqs
    unfold resolve_frame_list
    split
    · simp
    · dsimp only
      split
      · simp
      · split
        · exact pySortedSet_sorted _
        · exact (pySortedSet_sorted _).filter _
  · intro es seqs f
    unfold resolve_frame_list
    split
    · rename_i hseqs
      rw [List.isEmpty_iff] at hseqs
      subst hseqs
      simp
    · dsimp only
      split
      · rename_i hfl
        rw [List.isEmpty_iff] at hfl
        simp only [List.not_mem_nil, false_iff, not_and]
        intro hmem
        obtain ⟨p, hp, hf⟩ := hmem
        have : f ∈ (seqs.map (fun p => p.2.frames)).flatten := by
          simp only [List.mem_flatten, List.mem_map]
          exact ⟨p.2.frames, ⟨p, hp, rfl⟩, hf⟩
        rw [hfl] at this
        simp at this
      · split
        · rename_i hrange
          rw [pySortedSet_mem]
          simp only [List.mem_flatten, List.mem_map, hrange]
          constructor
          · rintro ⟨_, ⟨p, hp, rfl⟩, hf⟩
            exact ⟨⟨p, hp, hf⟩, by simp⟩
          · rintro ⟨⟨p, hp, hf⟩, _⟩
            exact ⟨p.2.frames, ⟨p, hp, rfl⟩, hf⟩
        · rename_i s e hrange
          rw [List.mem_filter, pySortedSet_mem]
          simp only [List.mem_flatten, List.mem_map, hrange, Bool.and_eq_true, decide_eq_true_eq]
          constructor
          · rintro ⟨⟨_, ⟨p, hp, rfl⟩, hf⟩, h1, h2⟩
            refine ⟨⟨p, hp, hf⟩, ?_⟩
            rintro s' e' heq
            injection heq with heq
            injection heq with h3 h4
            subst h3; subst h4
            exact ⟨h1, h2⟩
          · rintro ⟨⟨p, hp, hf⟩, hflt⟩
            obtain ⟨h1, h2⟩ := hflt s e rfl
            exact ⟨⟨p.2.frames, ⟨p, hp, rfl⟩, hf⟩, h1, h2⟩
  · intro es seqs pol env hmk hval hres
    unfold runModel
    rw [hmk, hval, hres]
    simp

/-- C2 witness: the no-frames termination at a concrete run with no
sequences. -/
theorem C2_frame_range_resolver_witness :
    (runModel exSpec [] "skip" envOkAll).1 =
      [Ev.mkdirOutputDir, Ev.validateGate, Ev.finished false "No frames to export"] :=
  C2_frame_range_resolver.2.2.2.2 exSpec [] "skip" envOkAll rfl rfl rfl

/-- C5 counterexample: at a concrete run whose validation gate reports
one ERROR, the run does terminate unsuccessfully — but its very first
action is creating the output directory, so a directory is created
before the validation gate has passed, contradicting the claim that no
file or directory is created, opened, read, or written before it. -/
theorem C5_counterexample :
    (runModel exSpec exSeqsA "skip" envValErr).1 =
      [Ev.mkdirOutputDir, Ev.validateGate,
        Ev.finished false "Export blocked: 1 validation errors"] ∧
    (runModel exSpec exSeqsA "skip" envValErr).1.head? = some Ev.mkdirOutputDir := by
  constructor <;> rfl

/-- C5 amended: when validation reports any ERROR, the run terminates
with a non-success outcome before any frame I/O — no codec call is made
and no progress tracker is created — but the output-directory creation
(the one I/O `run()` performs first) does precede the validation
gate. -/
theorem C5_amended (es : ExportSpec) (seqs : SequenceMap) (pol : String) (env : RunEnv)
    (hmk : env.mkdirOk = true) (hval : env.validationErrors ≠ 0) :
    (runModel es seqs pol env).1 =
      [Ev.mkdirOutputDir, Ev.validateGate,
        Ev.finished false
          ("Export blocked: " ++ toString env.validationErrors ++ " validation errors")] ∧
    (∀ c locked, Ev.oiio c locked ∉ (runModel es seqs pol env).1) ∧
    (∀ n, Ev.trackerCreated n ∉ (runModel es seqs pol env).1) := by
  have h : (runModel es seqs pol env).1 =
      [Ev.mkdirOutputDir, Ev.validateGate,
        Ev.finished false
          ("Export blocked: " ++ toString env.validationErrors ++ " validation errors")] := by
    unfold runModel
    rw [hmk]
    simp [hval]
  refine ⟨h, ?_, ?_⟩ <;> intros <;> rw [h] <;> simp

/-- C5 amended witness: the concrete blocked run. -/
theorem C5_amended_witness :
    (runModel exSpec exSeqsA "skip" envValErr).1 =
      [Ev.mkdirOutputDir, Ev.validateGate,
        Ev.finished false "Export blocked: 1 validation errors"] :=
  (C5_amended exSpec exSeqsA "skip" envValErr rfl (by decide)).1

theorem writeExrFailCalls_mem_oiio (m : FrameFailure) (e : Ev)
    (h : e ∈ writeExrFailCalls m) : ∃ c locked, e = Ev.oiio c locked := by
  cases m with
  | beforeWrite => exact absurd h (by simp [writeExrFailCalls])
  | createFailed =>
    simp only [writeExrFailCalls, List.mem_cons, List.not_mem_nil, or_false] at h
    exact ⟨_, _, h⟩
  | openFailed =>
    simp only [writeExrFailCalls, List.mem_cons, List.not_mem_nil, or_false] at h
    rcases h with h | h | h <;> exact ⟨_, _, h⟩
  | writeFailed =>
    simp only [writeExrFailCalls, List.mem_cons, List.not_mem_nil, or_false] at h
    rcases h with h | h | h | h <;> exact ⟨_, _, h⟩

theorem exportFrameFailCalls_mem_oiio (r : Nat) (m : FrameFailure) (e : Ev)
    (h : e ∈ exportFrameFailCalls r m) : ∃ c locked, e = Ev.oiio c locked := by
  cases m with
  | beforeWrite => exact absurd h (by simp [exportFrameFailCalls])
  | createFailed | openFailed | writeFailed =>
    simp only [exportFrameFailCalls] at h
    rw [List.mem_append] at h
    rcases h with h | h
    · rw [List.mem_flatten] at h
      obtain ⟨l, hl, hm⟩ := h
      rw [List.mem_replicate] at hl
      rw [hl.2] at hm
      simp only [List.mem_cons, List.not_mem_nil, or_false] at hm
      rcases hm with hm | hm | hm <;> exact ⟨_, _, hm⟩
    · exact writeExrFailCalls_mem_oiio _ e h

theorem tracker_notin_exportFrameFailCalls (n r : Nat) (m : FrameFailure) :
    Ev.trackerCreated n ∉ exportFrameFailCalls r m := fun h =>
  match exportFrameFailCalls_mem_oiio r m _ h with
  | ⟨_, _, hc⟩ => Ev.noConfusion hc

theorem switch_notin_exportFrameFailCalls (r : Nat) (m : FrameFailure) (fs : List Int) :
    Ev.switchToParallel fs ∉ exportFrameFailCalls r m := fun h =>
  match exportFrameFailCalls_mem_oiio r m _ h with
  | ⟨_, _, hc⟩ => Ev.noConfusion hc

theorem finished_notin_exportFrameFailCalls (r : Nat) (m : FrameFailure) (ok : Bool)
    (msg : String) : Ev.finished ok msg ∉ exportFrameFailCalls r m := fun h =>
  match exportFrameFailCalls_mem_oiio r m _ h with
  | ⟨_, _, hc⟩ => Ev.noConfusion hc

theorem submit_notin_exportFrameFailCalls (r : Nat) (m : FrameFailure) (f : Int) :
    Ev.submitTask f ∉ exportFrameFailCalls r m := fun h =>
  match exportFrameFailCalls_mem_oiio r m _ h with
  | ⟨_, _, hc⟩ => Ev.noConfusion hc

theorem tracker_notin_exportFrameCalls (n r : Nat) :
    Ev.trackerCreated n ∉ exportFrameCalls r := by
  unfold exportFrameCalls writeExrCalls
  intro h
  rw [List.mem_append] at h
  rcases h with h | h
  · rw [List.mem_flatten] at h
    obtain ⟨l, hl, hm⟩ := h
    rw [List.mem_replicate] at hl
    rw [hl.2] at hm
    simp at hm
  · simp at h

theorem tracker_notin_wrapper (env : RunEnv) (f : Int) (n : Nat) :
    Ev.trackerCreated n ∉ (frameWrapper env f).1 := by
  unfold frameWrapper
  split_ifs <;> simp [tracker_notin_exportFrameCalls, tracker_notin_exportFrameFailCalls]

theorem tracker_notin_drain (env : RunEnv) (total : Nat) :
    ∀ (order : List Int) (t c n : Nat),
      Ev.trackerCreated n ∉ (parallelDrain env total order t c).1 := by
  intro order
  induction order with
  | nil => intro t c n; simp [parallelDrain]
  | cons f rest ih =>
    intro t c n
    simp only [parallelDrain]
    by_cases h1 : env.stop t = true
    · simp [h1]
    · by_cases hw : (frameWrapper env f).2 = true
      · by_cases h2 : env.stop (t + 1) = true <;>
          simp [h1, hw, h2, tracker_notin_wrapper]
      · cases hpy : pyPercentInt (c + 1) total <;>
          simp [h1, hw, hpy, tracker_notin_wrapper, ih]

theorem tracker_in_parallel (env : RunEnv) (l : List Int) (t n : Nat)
    (h : Ev.trackerCreated n ∈ (exportFramesParallel env l t).1) : n = l.length := by
  unfold exportFramesParallel at h
  dsimp only at h
  rcases List.mem_cons.mp h with h | h
  · injection h with h
  · rcases List.mem_append.mp h with h | h
    · rw [List.mem_map] at h
      obtain ⟨x, _, hx⟩ := h
      injection hx
    · exact absurd h (tracker_notin_drain env l.length env.completionOrder t 0 n)

theorem tracker_in_directLoop (env : RunEnv) (orig : List Int) :
    ∀ (l : List Int) (t c n : Nat), (∀ x ∈ l, x ∈ orig) →
      Ev.trackerCreated n ∈ (directCopyLoop env orig l t c).1 → 1 ≤ n := by
  intro l
  induction l with
  | nil => intro t c n _ h; simp [directCopyLoop] at h
  | cons f rest ih =>
    intro t c n hsub h
    unfold directCopyLoop at h
    split_ifs at h with h1 h2
    · simp at h
    · revert h
      split
      · intro h
        simp only [List.mem_append, List.mem_cons] at h
        rcases h with h | h | h | h
        · simp [directCopyFrameCalls] at h
        · injection h
        · injection h
        · exact ih (t + 1) (c + 1) n (fun x hx => hsub x (List.mem_cons_of_mem f hx)) h
      · intro h
        simp at h
    · rw [List.mem_cons] at h
      rcases h with h | h
      · injection h
      · have hn := tracker_in_parallel env _ _ _ h
        have hf : f ∈ orig.filter (fun x => decide (f ≤ x)) := by
          rw [List.mem_filter]
          exact ⟨hsub f (List.mem_cons_self f rest), by simp⟩
        have : 0 < (orig.filter (fun x => decide (f ≤ x))).length :=
          List.length_pos.mpr (List.ne_nil_of_mem hf)
        omega

/-- C10: `AtomicProgress` divides by its total with no guard — with
`total = 0` every `increment()` and `get_percent()` raises
`ZeroDivisionError` (modelled as `none`) — and the precondition
`total ≥ 1` holds at every tracker construction site of any run: both
export paths are entered only behind the non-empty-frame-list check,
and the fallback's remaining list always contains the failed frame. -/
theorem C10_zero_total_guard :
    (∀ p : AtomicProgress, p.total = 0 → ∀ f, p.increment f = none) ∧
    (∀ p : AtomicProgress, p.total = 0 → p.get_percent = none) ∧
    (∀ es seqs pol env n, Ev.trackerCreated n ∈ (runModel es seqs pol env).1 → 1 ≤ n) := by
  refine ⟨?_, ?_, ?_⟩
  · intro p hp f
    simp [AtomicProgress.increment, pyPercentInt, hp]
  · intro p hp
    simp [AtomicProgress.get_percent, pyPercentInt, hp]
  · intro es seqs pol env n h
    unfold runModel at h
    split at h
    · simp at h
    · split at h
      · simp at h
      · dsimp only at h
        split at h
        · simp at h
        · rename_i hfl
          have hlen : (resolve_frame_list es seqs).length ≠ 0 := by
            intro hz
            rw [List.length_eq_zero] at hz
            rw [hz] at hfl
            simp at hfl
          split at h
          · unfold exportFramesDirectCopy at h
            dsimp only at h
            rw [List.mem_cons, List.mem_cons] at h
            rcases h with h | h | h
            · injection h
            · injection h
            · rw [List.mem_cons] at h
              rcases h with h | h
              · injection h with h
                omega
              · exact tracker_in_directLoop env _ _ 0 0 n (fun x hx => hx) h
          · rw [List.mem_cons, List.mem_cons] at h
            rcases h with h | h | h
            · injection h
            · injection h
            · have hn := tracker_in_parallel env _ _ _ h
              omega

/-- C10 witness: a tracker with total 0 raises on increment and on
`get_percent`, at concrete state. -/
theorem C10_zero_total_guard_witness :
    AtomicProgress.increment ⟨5, 0, -1⟩ 3 = none ∧
    AtomicProgress.get_percent ⟨5, 0, -1⟩ = none :=
  ⟨C10_zero_total_guard.1 ⟨5, 0, -1⟩ rfl 3, C10_zero_total_guard.2.1 ⟨5, 0, -1⟩ rfl⟩

theorem write_locked_in_exportFrameCalls (r : Nat) (c : OiioCall) (locked : Bool)
    (h : Ev.oiio c locked ∈ exportFrameCalls r) (hw : c.isWriteCall = true) :
    locked = true := by
  unfold exportFrameCalls at h
  rw [List.mem_append] at h
  rcases h with h | h
  · rw [List.mem_flatten] at h
    obtain ⟨l, hl, hm⟩ := h
    rw [List.mem_replicate] at hl
    rw [hl.2] at hm
    simp only [List.mem_cons, List.not_mem_nil, or_false] at hm
    rcases hm with hm | hm | hm <;>
      · injection hm with h1 h2
        subst h1
        simp [OiioCall.isWriteCall] at hw
  · unfold writeExrCalls at h
    simp only [List.mem_cons, List.not_mem_nil, or_false] at h
    rcases h with h | h | h | h <;> injection h with h1 h2

theorem write_locked_in_failCalls (m : FrameFailure) (c : OiioCall) (locked : Bool)
    (h : Ev.oiio c locked ∈ writeExrFailCalls m) (hc : c ≠ .closeOutput) :
    locked = true := by
  cases m with
  | beforeWrite => exact absurd h (by simp [writeExrFailCalls])
  | createFailed =>
    simp only [writeExrFailCalls, List.mem_cons, List.not_mem_nil, or_false] at h
    injection h with h1 h2
  | openFailed =>
    simp only [writeExrFailCalls, List.mem_cons, List.not_mem_nil, or_false] at h
    rcases h with h | h | h <;> injection h with h1 h2
    exact absurd h1 hc
  | writeFailed =>
    simp only [writeExrFailCalls, List.mem_cons, List.not_mem_nil, or_false] at h
    rcases h with h | h | h | h <;> injection h with h1 h2
    exact absurd h1 hc

theorem write_locked_in_exportFrameFailCalls (r : Nat) (m : FrameFailure) (c : OiioCall)
    (locked : Bool) (h : Ev.oiio c locked ∈ exportFrameFailCalls r m)
    (hw : c.isWriteCall = true) (hc : c ≠ .closeOutput) : locked = true := by
  cases m with
  | beforeWrite => exact absurd h (by simp [exportFrameFailCalls])
  | createFailed | openFailed | writeFailed =>
    simp only [exportFrameFailCalls] at h
    rw [List.mem_append] at h
    rcases h with h | h
    · rw [List.mem_flatten] at h
      obtain ⟨l, hl, hm⟩ := h
      rw [List.mem_replicate] at hl
      rw [hl.2] at hm
      simp only [List.mem_cons, List.not_mem_nil, or_false] at hm
      rcases hm with hm | hm | hm <;>
        · injection hm with h1 h2
          subst h1
          simp [OiioCall.isWriteCall] at hw
    · exact write_locked_in_failCalls _ c locked h hc

theorem write_locked_in_wrapper (env : RunEnv) (f : Int) (c : OiioCall) (locked : Bool)
    (h : Ev.oiio c locked ∈ (frameWrapper env f).1) (hw : c.isWriteCall = true)
    (hc : c ≠ .closeOutput) : locked = true := by
  unfold frameWrapper at h
  split_ifs at h <;> simp only [List.mem_cons, List.not_mem_nil, or_false] at h
  all_goals
    first
    | (rcases h with h | h
       · injection h
       · first
         | exact write_locked_in_exportFrameCalls env.readsPerFrame c locked h hw
         | exact write_locked_in_exportFrameFailCalls env.readsPerFrame _ c locked h hw hc)
    | (injection h)

theorem write_locked_in_drain (env : RunEnv) (total : Nat) :
    ∀ (order : List Int) (t cc : Nat) (c : OiioCall) (locked : Bool),
      Ev.oiio c locked ∈ (parallelDrain env total order t cc).1 →
      c.isWriteCall = true → c ≠ .closeOutput → locked = true := by
  intro order
  induction order with
  | nil =>
    intro t cc c locked h _ _
    simp [parallelDrain] at h
  | cons f rest ih =>
    intro t cc c locked h hw hc
    simp only [parallelDrain] at h
    by_cases h1 : env.stop t = true
    · simp [h1] at h
    · simp only [h1, if_false, Bool.false_eq_true] at h
      by_cases hwr : (frameWrapper env f).2 = true
      · by_cases h2 : env.stop (t + 1) = true <;>
          · simp only [hwr, if_true, h2, if_false, Bool.false_eq_true, ite_true, ite_false,
              List.mem_append, List.mem_cons, List.not_mem_nil, or_false] at h
            rcases h with h | h | h
            · exact write_locked_in_wrapper env f c locked h hw hc
            · injection h
            · injection h
      · cases hpy : pyPercentInt (cc + 1) total with
        | some pct =>
          simp only [hwr, Bool.false_eq_true, ite_false, hpy, List.mem_append,
            List.mem_cons] at h
          rcases h with h | h | h
          · exact write_locked_in_wrapper env f c locked h hw hc
          · injection h
          · exact ih (t + 1) (cc + 1) c locked h hw hc
        | none =>
          simp only [hwr, Bool.false_eq_true, ite_false, hpy, List.mem_append,
            List.mem_cons, List.not_mem_nil, or_false] at h
          rcases h with h | h
          · exact write_locked_in_wrapper env f c locked h hw hc
          · injection h

/-- C4 counterexample: in a full concrete run taking the direct-copy
path, the encoded-stream copy (`out.copy_image`, a write-library call)
is executed without `ExportRunner._oiio_lock` held — the claim that
every image-writing call on both paths holds the mutex is false. -/
theorem C4_counterexample :
    Ev.oiio .copyImage false ∈ (runModel exSpec exSeqsA "skip" envOkAll).1 ∧
    OiioCall.isWriteCall .copyImage = true := by
  exact ⟨by decide, rfl⟩

/-- C4 amended: `_write_exr` holds the process-wide `_oiio_lock` for
its create, open-for-write and pixel-write calls, and on the success
path also for the close; but on its error paths — `out.open` or
`out.write_image` failing after a successful `ImageOutput.create` —
the exception releases the lock on leaving the `with` block and the
`finally` block then closes the handle WITHOUT the lock, so an
unlocked close-output (write-kind) call occurs on the parallel path;
every other write-kind call on the parallel path is locked; the
direct-copy path performs all of its codec calls (create, open, copy
encoded stream, close) without the lock. -/
theorem C4_amended :
    (∀ c locked, Ev.oiio c locked ∈ writeExrCalls → locked = true) ∧
    (∀ m c locked, Ev.oiio c locked ∈ writeExrFailCalls m → c ≠ .closeOutput →
      locked = true) ∧
    (Ev.oiio .closeOutput false ∈ writeExrFailCalls .openFailed ∧
     Ev.oiio .closeOutput false ∈ writeExrFailCalls .writeFailed ∧
     OiioCall.isWriteCall .closeOutput = true) ∧
    (∀ env f, env.workerStop f = false → env.frameOk f = false →
      env.failMode f = .openFailed →
      Ev.oiio .closeOutput false ∈ (frameWrapper env f).1) ∧
    (∀ env l t c locked, Ev.oiio c locked ∈ (exportFramesParallel env l t).1 →
      c.isWriteCall = true → c ≠ .closeOutput → locked = true) ∧
    (∀ c locked, Ev.oiio c locked ∈ directCopyFrameCalls → locked = false) := by
  refine ⟨?_, ?_, ⟨by decide, by decide, rfl⟩, ?_, ?_, ?_⟩
  · intro c locked h
    unfold writeExrCalls at h
    simp only [List.mem_cons, List.not_mem_nil, or_false] at h
    rcases h with h | h | h | h <;> injection h with h1 h2
  · intro m c locked h hc
    exact write_locked_in_failCalls m c locked h hc
  · intro env f hws hfo hfm
    unfold frameWrapper
    rw [hws, hfo, hfm]
    simp only [Bool.false_eq_true, if_false]
    split_ifs <;>
      · rw [List.mem_cons]
        right
        simp only [exportFrameFailCalls]
        rw [List.mem_append]
        right
        simp [writeExrFailCalls]
  · intro env l t c locked h hw hc
    unfold exportFramesParallel at h
    dsimp only at h
    rcases List.mem_cons.mp h with h | h
    · injection h
    · rcases List.mem_append.mp h with h | h
      · rw [List.mem_map] at h
        obtain ⟨x, _, hx⟩ := h
        injection hx
      · exact write_locked_in_drain env l.length env.completionOrder t 0 c locked h hw hc
  · intro c locked h
    unfold directCopyFrameCalls at h
    simp only [List.mem_cons, List.not_mem_nil, or_false] at h
    rcases h with h | h | h | h | h | h <;> injection h with h1 h2

/-- C4 amended witness: the concrete unlocked finally-close of a frame
whose `out.open` fails, and a concrete locked pixel write. -/
theorem C4_amended_witness :
    Ev.oiio .closeOutput false ∈ (frameWrapper envOpenFail1 1).1 ∧
    Ev.oiio .writeImage true ∈ (exportFramesParallel envOkAll [1] 0).1 ∧ (true : Bool) = true :=
  ⟨C4_amended.2.2.2.1 envOpenFail1 1 (by decide) (by decide) (by decide),
   by decide,
   C4_amended.1 .createOutput true (by decide)⟩

theorem pyPercentInt_isSome (k total : Nat) (h : total ≠ 0) :
    ∃ v, pyPercentInt k total = some v := by
  unfold pyPercentInt
  rw [if_neg h]
  exact ⟨_, rfl⟩

theorem switchCount_append (a b : List Ev) :
    switchCount (a ++ b) = switchCount a + switchCount b := by
  unfold switchCount
  rw [List.filter_append, List.length_append]

theorem switchCount_eq_zero (tr : List Ev) (h : ∀ fs, Ev.switchToParallel fs ∉ tr) :
    switchCount tr = 0 := by
  unfold switchCount
  rw [List.length_eq_zero, List.filter_eq_nil_iff]
  intro e he
  cases e
  case switchToParallel fs => exact absurd he (h fs)
  all_goals simp

theorem switch_notin_exportFrameCalls (r : Nat) (fs : List Int) :
    Ev.switchToParallel fs ∉ exportFrameCalls r := by
  unfold exportFrameCalls writeExrCalls
  intro h
  rw [List.mem_append] at h
  rcases h with h | h
  · rw [List.mem_flatten] at h
    obtain ⟨l, hl, hm⟩ := h
    rw [List.mem_replicate] at hl
    rw [hl.2] at hm
    simp at hm
  · simp at h

theorem switch_notin_wrapper (env : RunEnv) (f : Int) (fs : List Int) :
    Ev.switchToParallel fs ∉ (frameWrapper env f).1 := by
  unfold frameWrapper
  split_ifs <;> simp [switch_notin_exportFrameCalls, switch_notin_exportFrameFailCalls]

theorem switch_notin_drain (env : RunEnv) (total : Nat) :
    ∀ (order : List Int) (t c : Nat) (fs : List Int),
      Ev.switchToParallel fs ∉ (parallelDrain env total order t c).1 := by
  intro order
  induction order with
  | nil => intro t c fs; simp [parallelDrain]
  | cons f rest ih =>
    intro t c fs
    simp only [parallelDrain]
    by_cases h1 : env.stop t = true
    · simp [h1]
    · by_cases hw : (frameWrapper env f).2 = true
      · by_cases h2 : env.stop (t + 1) = true <;>
          simp [h1, hw, h2, switch_notin_wrapper]
      · cases hpy : pyPercentInt (c + 1) total <;>
          simp [h1, hw, hpy, switch_notin_wrapper, ih]

theorem switch_notin_parallel (env : RunEnv) (l : List Int) (t : Nat) (fs : List Int) :
    Ev.switchToParallel fs ∉ (exportFramesParallel env l t).1 := by
  unfold exportFramesParallel
  dsimp only
  intro h
  rcases List.mem_cons.mp h with h | h
  · injection h
  · rcases List.mem_append.mp h with h | h
    · rw [List.mem_map] at h
      obtain ⟨x, _, hx⟩ := h
      injection hx
    · exact absurd h (switch_notin_drain env l.length env.completionOrder t 0 fs)

theorem switchCount_parallel (env : RunEnv) (l : List Int) (t : Nat) :
    switchCount (exportFramesParallel env l t).1 = 0 :=
  switchCount_eq_zero _ (fun fs => switch_notin_parallel env l t fs)

theorem switchCount_directLoop (env : RunEnv) (orig : List Int) :
    ∀ (l : List Int) (t c : Nat), switchCount (directCopyLoop env orig l t c).1 ≤ 1 := by
  intro l
  induction l with
  | nil => intro t c; simp [directCopyLoop, switchCount]
  | cons f rest ih =>
    intro t c
    simp only [directCopyLoop]
    by_cases h1 : env.stop t = true
    · simp [h1, switchCount]
    · simp only [h1, Bool.false_eq_true, if_false]
      by_cases h2 : env.copyOk f = true
      · cases hpy : pyPercentInt (c + 1) orig.length with
        | some pct =>
          simp only [h2, if_true, hpy]
          rw [show directCopyFrameCalls ++ Ev.copiedFrame f :: Ev.progressEmit pct ::
              (directCopyLoop env orig rest (t + 1) (c + 1)).1 =
            (directCopyFrameCalls ++ [Ev.copiedFrame f, Ev.progressEmit pct]) ++
              (directCopyLoop env orig rest (t + 1) (c + 1)).1 by simp]
          rw [switchCount_append]
          have h3 : switchCount (directCopyFrameCalls ++
              [Ev.copiedFrame f, Ev.progressEmit pct]) = 0 := by
            rw [switchCount_append]
            rfl
          rw [h3]
          simpa using ih (t + 1) (c + 1)
        | none => simp [h2, hpy, switchCount]
      · simp only [h2, Bool.false_eq_true, if_false]
        rw [show Ev.switchToParallel (orig.filter (fun x => decide (f ≤ x))) ::
            (exportFramesParallel env (orig.filter (fun x => decide (f ≤ x))) (t + 1)).1 =
          [Ev.switchToParallel (orig.filter (fun x => decide (f ≤ x)))] ++
            (exportFramesParallel env (orig.filter (fun x => decide (f ≤ x))) (t + 1)).1
          from rfl]
        rw [switchCount_append, switchCount_parallel]
        rfl

theorem copied_mem_directCopiesTrace (total : Nat) (x : Int) :
    ∀ (done : List Int) (c : Nat), x ∈ done →
      Ev.copiedFrame x ∈ directCopiesTrace total done c := by
  intro done
  induction done with
  | nil => intro c h; simp at h
  | cons y ys ih =>
    intro c h
    rw [List.mem_cons] at h
    unfold directCopiesTrace
    rcases h with h | h
    · subst h
      simp
    · simp only [List.mem_append, List.mem_cons]
      exact Or.inr (Or.inr (Or.inr (ih (c + 1) h)))

theorem directCopiesTrace_cons (total : Nat) (x : Int) (xs : List Int) (c : Nat) :
    directCopiesTrace total (x :: xs) c =
      directCopyFrameCalls ++ Ev.copiedFrame x ::
        Ev.progressEmit ((pyPercentInt (c + 1) total).getD 0) ::
          directCopiesTrace total xs (c + 1) := rfl

theorem directLoop_fallback (env : RunEnv) (orig : List Int) (horig : orig.length ≠ 0) :
    ∀ (done : List Int) (f : Int) (rest : List Int) (t c : Nat),
      (∀ i, i < done.length + 1 → env.stop (t + i) = false) →
      (∀ x ∈ done, env.copyOk x = true) →
      env.copyOk f = false →
      directCopyLoop env orig (done ++ f :: rest) t c =
        (directCopiesTrace orig.length done c ++
          Ev.switchToParallel (orig.filter (fun x => decide (f ≤ x))) ::
            (exportFramesParallel env (orig.filter (fun x => decide (f ≤ x)))
              (t + done.length + 1)).1,
         (exportFramesParallel env (orig.filter (fun x => decide (f ≤ x)))
              (t + done.length + 1)).2) := by
  intro done
  induction done with
  | nil =>
    intro f rest t c hstop hok hf
    have h0 : env.stop t = false := by
      have := hstop 0 (by omega)
      simpa using this
    simp only [List.nil_append, directCopyLoop, h0, Bool.false_eq_true, if_false, hf,
      directCopiesTrace, List.nil_append]
    rfl
  | cons x done' ih =>
    intro f rest t c hstop hok hf
    have h0 : env.stop t = false := by
      have := hstop 0 (by omega)
      simpa using this
    have hx : env.copyOk x = true := hok x (List.mem_cons_self x done')
    obtain ⟨v, hv⟩ := pyPercentInt_isSome (c + 1) orig.length horig
    have ihx := ih f rest (t + 1) (c + 1)
      (fun i hi => by
        have := hstop (i + 1) (by simpa [List.length_cons] using Nat.add_lt_add_right hi 1)
        simpa [Nat.add_assoc, Nat.add_comm 1 i] using this)
      (fun y hy => hok y (List.mem_cons_of_mem x hy)) hf
    simp only [List.cons_append, directCopyLoop, h0, Bool.false_eq_true, if_false, hx,
      if_true, hv, List.append_eq]
    rw [ihx]
    have harith : t + 1 + done'.length + 1 = t + (x :: done').length + 1 := by
      simp only [List.length_cons]
      omega
    rw [harith, directCopiesTrace_cons]
    simp [List.append_assoc, hv]

/-- C3: when a direct copy fails at frame `f` (stop not requested, all
earlier resolved frames copied), the run hands exactly the resolved
frames `≥ f` to the parallel exporter, the frames copied before the
failure stay recorded in the trace (no rollback event exists in the
model), the strategy switch occurs at most once per run, and the
parallel path never switches at all (one-directional fallback). -/
theorem C3_direct_copy_fallback :
    (∀ env (done : List Int) (f : Int) (rest : List Int),
      (∀ i, i < done.length + 1 → env.stop i = false) →
      (∀ x ∈ done, env.copyOk x = true) →
      env.copyOk f = false →
      (exportFramesDirectCopy env (done ++ f :: rest) 0).1 =
        Ev.trackerCreated (done ++ f :: rest).length ::
          (directCopiesTrace (done ++ f :: rest).length done 0 ++
            Ev.switchToParallel ((done ++ f :: rest).filter (fun x => decide (f ≤ x))) ::
              (exportFramesParallel env
                ((done ++ f :: rest).filter (fun x => decide (f ≤ x)))
                (done.length + 1)).1)) ∧
    (∀ env (done : List Int) (f : Int) (rest : List Int),
      (∀ i, i < done.length + 1 → env.stop i = false) →
      (∀ x ∈ done, env.copyOk x = true) →
      env.copyOk f = false →
      ∀ x ∈ done, Ev.copiedFrame x ∈ (exportFramesDirectCopy env (done ++ f :: rest) 0).1) ∧
    (∀ es seqs pol env, switchCount (runModel es seqs pol env).1 ≤ 1) ∧
    (∀ env l t, switchCount (exportFramesParallel env l t).1 = 0) := by
  have hmain : ∀ (env : RunEnv) (done : List Int) (f : Int) (rest : List Int),
      (∀ i, i < done.length + 1 → env.stop i = false) →
      (∀ x ∈ done, env.copyOk x = true) →
      env.copyOk f = false →
      (exportFramesDirectCopy env (done ++ f :: rest) 0).1 =
        Ev.trackerCreated (done ++ f :: rest).length ::
          (directCopiesTrace (done ++ f :: rest).length done 0 ++
            Ev.switchToParallel ((done ++ f :: rest).filter (fun x => decide (f ≤ x))) ::
              (exportFramesParallel env
                ((done ++ f :: rest).filter (fun x => decide (f ≤ x)))
                (done.length + 1)).1) := by
    intro env done f rest hstop hok hf
    have hlen : (done ++ f :: rest).length ≠ 0 := by simp
    have h := directLoop_fallback env (done ++ f :: rest) hlen done f rest 0 0
      (fun i hi => by simpa using hstop i hi) hok hf
    unfold exportFramesDirectCopy
    dsimp only
    rw [h]
    simp
  refine ⟨hmain, ?_, ?_, switchCount_parallel⟩
  · intro env done f rest hstop hok hf x hx
    rw [hmain env done f rest hstop hok hf]
    rw [List.mem_cons, List.mem_append]
    exact Or.inr (Or.inl (copied_mem_directCopiesTrace _ x done 0 hx))
  · intro es seqs pol env
    unfold runModel
    split
    · simp [switchCount]
    · split
      · simp [switchCount]
      · dsimp only
        split
        · simp [switchCount]
        · split
          · unfold exportFramesDirectCopy
            dsimp only
            rw [show Ev.trackerCreated (resolve_frame_list es seqs).length ::
                (directCopyLoop env (resolve_frame_list es seqs)
                  (resolve_frame_list es seqs) 0 0).1 =
              [Ev.trackerCreated (resolve_frame_list es seqs).length] ++
                (directCopyLoop env (resolve_frame_list es seqs)
                  (resolve_frame_list es seqs) 0 0).1 from rfl]
            rw [show Ev.mkdirOutputDir :: Ev.validateGate ::
                ([Ev.trackerCreated (resolve_frame_list es seqs).length] ++
                  (directCopyLoop env (resolve_frame_list es seqs)
                    (resolve_frame_list es seqs) 0 0).1) =
              [Ev.mkdirOutputDir, Ev.validateGate,
                Ev.trackerCreated (resolve_frame_list es seqs).length] ++
                (directCopyLoop env (resolve_frame_list es seqs)
                  (resolve_frame_list es seqs) 0 0).1 from rfl]
            rw [switchCount_append]
            have : switchCount [Ev.mkdirOutputDir, Ev.validateGate,
                Ev.trackerCreated (resolve_frame_list es seqs).length] = 0 := rfl
            rw [this]
            simpa using switchCount_directLoop env (resolve_frame_list es seqs)
              (resolve_frame_list es seqs) 0 0
          · rw [show Ev.mkdirOutputDir :: Ev.validateGate ::
                (exportFramesParallel env (resolve_frame_list es seqs) 0).1 =
              [Ev.mkdirOutputDir, Ev.validateGate] ++
                (exportFramesParallel env (resolve_frame_list es seqs) 0).1 from rfl]
            rw [switchCount_append, switchCount_parallel]
            simp [switchCount]

/-- C3 witness: the concrete run where the copy of frame 2 fails hands
frames `[2, 3]` to the parallel exporter. -/
theorem C3_direct_copy_fallback_witness :
    (exportFramesDirectCopy envCopyFail2 ([1] ++ 2 :: [3]) 0).1 =
      Ev.trackerCreated 3 ::
        (directCopiesTrace 3 [1] 0 ++
          Ev.switchToParallel [2, 3] ::
            (exportFramesParallel envCopyFail2 [2, 3] 2).1) := by
  have h := C3_direct_copy_fallback.1 envCopyFail2 [1] 2 [3]
    (fun i _ => rfl) (by decide) (by decide)
  simpa using h

theorem finished_notin_exportFrameCalls (r : Nat) (ok : Bool) (msg : String) :
    Ev.finished ok msg ∉ exportFrameCalls r := by
  unfold exportFrameCalls writeExrCalls
  intro h
  rw [List.mem_append] at h
  rcases h with h | h
  · rw [List.mem_flatten] at h
    obtain ⟨l, hl, hm⟩ := h
    rw [List.mem_replicate] at hl
    rw [hl.2] at hm
    simp at hm
  · simp at h

theorem finished_notin_wrapper (env : RunEnv) (f : Int) (ok : Bool) (msg : String) :
    Ev.finished ok msg ∉ (frameWrapper env f).1 := by
  unfold frameWrapper
  split_ifs <;> simp [finished_notin_exportFrameCalls, finished_notin_exportFrameFailCalls]

theorem submit_notin_exportFrameCalls (r : Nat) (f : Int) :
    Ev.submitTask f ∉ exportFrameCalls r := by
  unfold exportFrameCalls writeExrCalls
  intro h
  rw [List.mem_append] at h
  rcases h with h | h
  · rw [List.mem_flatten] at h
    obtain ⟨l, hl, hm⟩ := h
    rw [List.mem_replicate] at hl
    rw [hl.2] at hm
    simp at hm
  · simp at h

theorem submit_notin_wrapper (env : RunEnv) (f g : Int) :
    Ev.submitTask g ∉ (frameWrapper env f).1 := by
  unfold frameWrapper
  split_ifs <;> simp [submit_notin_exportFrameCalls, submit_notin_exportFrameFailCalls]

theorem submit_notin_drain (env : RunEnv) (total : Nat) :
    ∀ (order : List Int) (t c : Nat) (g : Int),
      Ev.submitTask g ∉ (parallelDrain env total order t c).1 := by
  intro order
  induction order with
  | nil => intro t c g; simp [parallelDrain]
  | cons f rest ih =>
    intro t c g
    simp only [parallelDrain]
    by_cases h1 : env.stop t = true
    · simp [h1]
    · by_cases hw : (frameWrapper env f).2 = true
      · by_cases h2 : env.stop (t + 1) = true <;>
          simp [h1, hw, h2, submit_notin_wrapper]
      · cases hpy : pyPercentInt (c + 1) total <;>
          simp [h1, hw, hpy, submit_notin_wrapper, ih]

theorem drain_success_no_stop (env : RunEnv) (total : Nat) :
    ∀ (order : List Int) (t c : Nat),
      Ev.finished true "Export completed successfully!" ∈ (parallelDrain env total order t c).1 →
      (parallelDrain env total order t c).2 = t + order.length ∧
      (∀ i, t ≤ i → i < t + order.length → env.stop i = false) := by
  intro order
  induction order with
  | nil =>
    intro t c _
    refine ⟨by simp [parallelDrain], ?_⟩
    intro i h1 h2
    simp at h2
    omega
  | cons f rest ih =>
    intro t c h
    simp only [parallelDrain] at h ⊢
    by_cases h1 : env.stop t = true
    · simp [h1] at h
    · simp only [h1, Bool.false_eq_true, if_false] at h ⊢
      by_cases hw : (frameWrapper env f).2 = true
      · exfalso
        by_cases h2 : env.stop (t + 1) = true <;>
          · simp only [hw, if_true, h2, Bool.false_eq_true, if_false, ite_true, ite_false,
              List.mem_append, List.mem_cons, List.not_mem_nil, or_false] at h
            rcases h with h | h | h
            · exact finished_notin_wrapper env f true _ h
            · injection h
            · injection h with h _
              exact Bool.noConfusion h
      · cases hpy : pyPercentInt (c + 1) total with
        | some pct =>
          simp only [hw, Bool.false_eq_true, if_false, hpy, List.mem_append,
            List.mem_cons] at h
          rcases h with h | h | h
          · exact absurd h (finished_notin_wrapper env f true _)
          · exact absurd h (by intro hx; injection hx)
          · obtain ⟨hsnd, hstops⟩ := ih (t + 1) (c + 1) h
            simp only [hw, Bool.false_eq_true, if_false, hpy]
            constructor
            · rw [hsnd]
              simp [List.length_cons]
              omega
            · intro i hle hlt
              rcases Nat.eq_or_lt_of_le hle with heq | hgt
              · rw [← heq]
                exact Bool.eq_false_iff.mpr h1
              · exact hstops i hgt (by simp [List.length_cons] at hlt; omega)
        | none =>
          exfalso
          simp only [hw, Bool.false_eq_true, if_false, hpy, List.mem_append,
            List.mem_cons, List.not_mem_nil, or_false] at h
          rcases h with h | h
          · exact finished_notin_wrapper env f true _ h
          · injection h with h _
            exact Bool.noConfusion h

theorem parallel_success_no_stop (env : RunEnv) (l : List Int) (t : Nat)
    (h : Ev.finished true "Export completed successfully!" ∈ (exportFramesParallel env l t).1) :
    (exportFramesParallel env l t).2 = t + env.completionOrder.length ∧
    (∀ i, t ≤ i → i < t + env.completionOrder.length → env.stop i = false) := by
  unfold exportFramesParallel at h ⊢
  dsimp only at h ⊢
  rcases List.mem_cons.mp h with h | h
  · exact absurd h (by intro hx; injection hx)
  · rcases List.mem_append.mp h with h | h
    · rw [List.mem_map] at h
      obtain ⟨x, _, hx⟩ := h
      injection hx
    · exact drain_success_no_stop env l.length env.completionOrder t 0 h

theorem directLoop_success_no_stop (env : RunEnv) (orig : List Int) :
    ∀ (l : List Int) (t c : Nat),
      Ev.finished true "Export completed successfully!" ∈ (directCopyLoop env orig l t c).1 →
      ∀ i, t ≤ i → i < (directCopyLoop env orig l t c).2 → env.stop i = false := by
  intro l
  induction l with
  | nil =>
    intro t c _ i h1 h2
    simp [directCopyLoop] at h2
    omega
  | cons f rest ih =>
    intro t c h i hle hlt
    simp only [directCopyLoop] at h hlt
    by_cases h1 : env.stop t = true
    · simp [h1] at h
    · simp only [h1, Bool.false_eq_true, if_false] at h hlt
      by_cases h2 : env.copyOk f = true
      · cases hpy : pyPercentInt (c + 1) orig.length with
        | some pct =>
          simp only [h2, if_true, hpy, List.mem_append, List.mem_cons] at h hlt
          rcases h with h | h | h | h
          · exfalso
            unfold directCopyFrameCalls at h
            simp at h
          · exact absurd h (by intro hx; injection hx)
          · exact absurd h (by intro hx; injection hx)
          · rcases Nat.eq_or_lt_of_le hle with heq | hgt
            · rw [← heq]
              exact Bool.eq_false_iff.mpr h1
            · exact ih (t + 1) (c + 1) h i hgt hlt
        | none =>
          simp only [h2, if_true, hpy, List.mem_cons, List.not_mem_nil, or_false] at h
          exact absurd h (by intro hx; injection hx with hx _; exact Bool.noConfusion hx)
      · simp only [h2, Bool.false_eq_true, if_false, List.mem_cons] at h hlt
        rcases h with h | h
        · exact absurd h (by intro hx; injection hx)
        · obtain ⟨hsnd, hstops⟩ := parallel_success_no_stop env _ (t + 1) h
          rcases Nat.eq_or_lt_of_le hle with heq | hgt
          · rw [← heq]
            exact Bool.eq_false_iff.mpr h1
          · exact hstops i hgt (by rw [← hsnd]; exact hlt)

/-- C6: once the stop flag is observed, the direct-copy loop returns
immediately with the distinct "stopped by user" outcome; the parallel
drain loop shuts the pool down with the same outcome; a worker that
observes the flag at entry starts no work at all; the drain loop never
submits tasks (all submissions precede it); and a run that finishes
successfully observed the stop flag as false at every one of its
reads. -/
theorem C6_stop_semantics :
    (∀ env orig (f : Int) (rest : List Int) t c, env.stop t = true →
      directCopyLoop env orig (f :: rest) t c =
        ([Ev.finished false "Export stopped by user"], t + 1)) ∧
    (∀ env total (f : Int) (rest : List Int) t c, env.stop t = true →
      parallelDrain env total (f :: rest) t c =
        ([Ev.shutdownPool, Ev.finished false "Export stopped by user"], t + 1)) ∧
    (∀ env (f : Int), env.workerStop f = true → frameWrapper env f = ([], false)) ∧
    (∀ env total (order : List Int) t c (g : Int),
      Ev.submitTask g ∉ (parallelDrain env total order t c).1) ∧
    (∀ es seqs pol env,
      Ev.finished true "Export completed successfully!" ∈ (runModel es seqs pol env).1 →
      ∀ i, i < (runModel es seqs pol env).2 → env.stop i = false) := by
  refine ⟨?_, ?_, ?_, ?_, ?_⟩
  · intro env orig f rest t c h
    simp [directCopyLoop, h]
  · intro env total f rest t c h
    simp [parallelDrain, h]
  · intro env f h
    simp [frameWrapper, h]
  · intro env total order t c g
    exact submit_notin_drain env total order t c g
  · intro es seqs pol env h i hi
    unfold runModel at h hi
    by_cases hmk : ¬ env.mkdirOk = true
    · rw [if_pos hmk] at h
      simp at h
    · rw [if_neg hmk] at h hi
      by_cases hval : env.validationErrors ≠ 0
      · rw [if_pos hval] at h
        simp at h
      · rw [if_neg hval] at h hi
        dsimp only at h hi
        by_cases hfl : (resolve_frame_list es seqs).isEmpty = true
        · rw [if_pos hfl] at h
          simp at h
        · rw [if_neg hfl] at h hi
          by_cases hcs : (can_skip_recompression es seqs pol).1 = true
          · rw [if_pos hcs] at h hi
            unfold exportFramesDirectCopy at h hi
            dsimp only at h hi
            rcases List.mem_cons.mp h with h | h
            · exact absurd h (by intro hx; injection hx)
            · rcases List.mem_cons.mp h with h | h
              · exact absurd h (by intro hx; injection hx)
              · rcases List.mem_cons.mp h with h | h
                · exact absurd h (by intro hx; injection hx)
                · exact directLoop_success_no_stop env _ _ 0 0 h i (Nat.zero_le i) hi
          · rw [if_neg hcs] at h hi
            dsimp only at h hi
            rcases List.mem_cons.mp h with h | h
            · exact absurd h (by intro hx; injection hx)
            · rcases List.mem_cons.mp h with h | h
              · exact absurd h (by intro hx; injection hx)
              · obtain ⟨hsnd, hstops⟩ := parallel_success_no_stop env _ 0 h
                exact hstops i (Nat.zero_le i) (by rw [← hsnd]; exact hi)

/-- C6 witness: a concrete stopped loop and a concrete stopped drain. -/
theorem C6_stop_semantics_witness :
    directCopyLoop envStopNow [1, 2, 3] [1, 2, 3] 0 0 =
      ([Ev.finished false "Export stopped by user"], 1) ∧
    parallelDrain envStopNow 3 [1, 2, 3] 0 0 =
      ([Ev.shutdownPool, Ev.finished false "Export stopped by user"], 1) :=
  ⟨C6_stop_semantics.1 envStopNow [1, 2, 3] 1 [2, 3] 0 0 rfl,
   C6_stop_semantics.2.1 envStopNow 3 1 [2, 3] 0 0 rfl⟩

theorem listSetEq_iff (a b : List String) :
    listSetEq a b = true ↔ ∀ x, x ∈ a ↔ x ∈ b := by
  unfold listSetEq
  rw [Bool.and_eq_true, List.all_eq_true, List.all_eq_true]
  constructor
  · intro ⟨h1, h2⟩ x
    constructor
    · intro hx
      simpa using h1 x hx
    · intro hx
      simpa using h2 x hx
  · intro h
    constructor
    · intro x hx
      simpa using (h x).mp hx
    · intro x hx
      simpa using (h x).mpr hx

theorem can_skip_policy_eq (es : ExportSpec) (seqs : SequenceMap) (pol : String)
    (hpol : pol = "always") :
    can_skip_recompression es seqs pol = (false, "Compression policy: always recompress") := by
  unfold can_skip_recompression
  rw [if_pos hpol]

theorem can_skip_multi_eq (es : ExportSpec) (seqs : SequenceMap) (pol : String)
    (hpol : pol ≠ "always") (hlen : (distinctSourceIds es).length ≠ 1) :
    can_skip_recompression es seqs pol =
      (false, "Multiple source sequences (" ++ toString (distinctSourceIds es).length ++ ")") := by
  rcases hd : distinctSourceIds es with _ | ⟨a, _ | ⟨b, l⟩⟩
  · simp [can_skip_recompression, hpol, hd]
  · exact absurd (by rw [hd]; rfl) hlen
  · simp [can_skip_recompression, hpol, hd]

theorem can_skip_notprobed_eq (es : ExportSpec) (seqs : SequenceMap) (pol : String) (id : String)
    (hpol : pol ≠ "always") (hdist : distinctSourceIds es = [id])
    (hnp : (seqLookup seqs id).bind (fun s => s.static_probe) = none) :
    can_skip_recompression es seqs pol =
      (false, "Source sequence " ++ quoted id ++ " not found or not probed") := by
  cases hlook : seqLookup seqs id with
  | none => simp [can_skip_recompression, hpol, hdist, hlook]
  | some seq =>
    rw [hlook, Option.some_bind] at hnp
    simp [can_skip_recompression, hpol, hdist, hlook, hnp]

theorem can_skip_nosub_eq (es : ExportSpec) (seqs : SequenceMap) (pol : String)
    (id : String) (seq : SequenceSpec) (probe : FileProbe)
    (hpol : pol ≠ "always") (hdist : distinctSourceIds es = [id])
    (hlook : seqLookup seqs id = some seq) (hsp : seq.static_probe = some probe)
    (hms : probe.main_subimage = none) :
    can_skip_recompression es seqs pol = (false, "Source file has no main subimage") := by
  simp [can_skip_recompression, hpol, hdist, hlook, hsp, hms]

theorem can_skip_channels_eq (es : ExportSpec) (seqs : SequenceMap) (pol : String)
    (id : String) (seq : SequenceSpec) (probe : FileProbe) (sub : SubImageProbe)
    (hpol : pol ≠ "always") (hdist : distinctSourceIds es = [id])
    (hlook : seqLookup seqs id = some seq) (hsp : seq.static_probe = some probe)
    (hms : probe.main_subimage = some sub)
    (hch : listSetEq (sub.channels.map (fun ch => ch.name))
      (es.output_channels.map (fun ch => ch.source.channel_name)) = false) :
    can_skip_recompression es seqs pol =
      (false, "Output is subset/superset of source channels") := by
  simp [can_skip_recompression, hpol, hdist, hlook, hsp, hms, hch]

theorem can_skip_compression_eq (es : ExportSpec) (seqs : SequenceMap) (pol : String)
    (id : String) (seq : SequenceSpec) (probe : FileProbe) (sub : SubImageProbe)
    (hpol : pol ≠ "always") (hdist : distinctSourceIds es = [id])
    (hlook : seqLookup seqs id = some seq) (hsp : seq.static_probe = some probe)
    (hms : probe.main_subimage = some sub)
    (hch : listSetEq (sub.channels.map (fun ch => ch.name))
      (es.output_channels.map (fun ch => ch.source.channel_name)) = true)
    (hcomp : normalizeSourceCompression (get_compression_from_probe probe 0) ≠
      pyLower es.compression) :
    can_skip_recompression es seqs pol =
      (false, "Compression mismatch: " ++
        normalizeSourceCompression (get_compression_from_probe probe 0) ++ " vs " ++
        pyLower es.compression) := by
  simp [can_skip_recompression, hpol, hdist, hlook, hsp, hms, hch, hcomp]

theorem can_skip_attrcount_eq (es : ExportSpec) (seqs : SequenceMap) (pol : String)
    (id : String) (seq : SequenceSpec) (probe : FileProbe) (sub : SubImageProbe)
    (hpol : pol ≠ "always") (hdist : distinctSourceIds es = [id])
    (hlook : seqLookup seqs id = some seq) (hsp : seq.static_probe = some probe)
    (hms : probe.main_subimage = some sub)
    (hch : listSetEq (sub.channels.map (fun ch => ch.name))
      (es.output_channels.map (fun ch => ch.source.channel_name)) = true)
    (hcomp : normalizeSourceCompression (get_compression_from_probe probe 0) =
      pyLower es.compression)
    (hcount : sub.attributes.attributes.length ≠ es.output_attributes.attributes.length) :
    can_skip_recompression es seqs pol =
      (false, "Attribute count mismatch: " ++ toString sub.attributes.attributes.length ++
        " vs " ++ toString es.output_attributes.attributes.length) := by
  simp [can_skip_recompression, hpol, hdist, hlook, hsp, hms, hch, hcomp, hcount]

theorem can_skip_attrname_eq (es : ExportSpec) (seqs : SequenceMap) (pol : String)
    (id : String) (seq : SequenceSpec) (probe : FileProbe) (sub : SubImageProbe)
    (bad : AttributeSpec)
    (hpol : pol ≠ "always") (hdist : distinctSourceIds es = [id])
    (hlook : seqLookup seqs id = some seq) (hsp : seq.static_probe = some probe)
    (hms : probe.main_subimage = some sub)
    (hch : listSetEq (sub.channels.map (fun ch => ch.name))
      (es.output_channels.map (fun ch => ch.source.channel_name)) = true)
    (hcomp : normalizeSourceCompression (get_compression_from_probe probe 0) =
      pyLower es.compression)
    (hcount : sub.attributes.attributes.length = es.output_attributes.attributes.length)
    (hfind : es.output_attributes.attributes.find?
      (fun a => (sub.attributes.get_by_name a.name).isNone) = some bad) :
    can_skip_recompression es seqs pol =
      (false, "Attribute " ++ quoted bad.name ++ " modified or added") := by
  simp [can_skip_recompression, hpol, hdist, hlook, hsp, hms, hch, hcomp, hcount, hfind]

theorem can_skip_override_eq (es : ExportSpec) (seqs : SequenceMap) (pol : String)
    (id : String) (seq : SequenceSpec) (probe : FileProbe) (sub : SubImageProbe)
    (hpol : pol ≠ "always") (hdist : distinctSourceIds es = [id])
    (hlook : seqLookup seqs id = some seq) (hsp : seq.static_probe = some probe)
    (hms : probe.main_subimage = some sub)
    (hch : listSetEq (sub.channels.map (fun ch => ch.name))
      (es.output_channels.map (fun ch => ch.source.channel_name)) = true)
    (hcomp : normalizeSourceCompression (get_compression_from_probe probe 0) =
      pyLower es.compression)
    (hcount : sub.attributes.attributes.length = es.output_attributes.attributes.length)
    (hfind : es.output_attributes.attributes.find?
      (fun a => (sub.attributes.get_by_name a.name).isNone) = none)
    (hover : es.output_channels.any (fun ch => ch.override_format.isSome) = true) :
    can_skip_recompression es seqs pol =
      (false, "Output channel format override present") := by
  simp [can_skip_recompression, hpol, hdist, hlook, hsp, hms, hch, hcomp, hcount, hfind,
    hover]

theorem can_skip_success_eq (es : ExportSpec) (seqs : SequenceMap) (pol : String)
    (h : AllChecksPass es seqs pol) :
    can_skip_recompression es seqs pol =
      (true, "Can skip recompression: identical copy possible") := by
  obtain ⟨hpol, id, seq, probe, sub, hdist, hlook, hsp, hms, hchan, hcomp, hcount,
    hnames, hover⟩ := h
  have hset : listSetEq (sub.channels.map (fun ch => ch.name))
      (es.output_channels.map (fun ch => ch.source.channel_name)) = true :=
    (listSetEq_iff _ _).mpr hchan
  have hfind : es.output_attributes.attributes.find?
      (fun a => (sub.attributes.get_by_name a.name).isNone) = none := by
    rw [List.find?_eq_none]
    intro a ha
    have h2 := hnames a ha
    cases hget : sub.attributes.get_by_name a.name
    · rw [hget] at h2
      simp at h2
    · simp
  have hany : es.output_channels.any (fun ch => ch.override_format.isSome) = false := by
    rw [List.any_eq_false]
    intro ch hch
    rw [hover ch hch]
    simp
  simp [can_skip_recompression, hpol, hdist, hlook, hsp, hms, hset, hcomp, hcount,
    hfind, hany]

theorem can_skip_true_iff (es : ExportSpec) (seqs : SequenceMap) (pol : String) :
    (can_skip_recompression es seqs pol).1 = true ↔ AllChecksPass es seqs pol := by
  constructor
  · intro h
    by_cases hpol : pol = "always"
    · rw [can_skip_policy_eq es seqs pol hpol] at h
      exact absurd h (by simp)
    · rcases hd : distinctSourceIds es with _ | ⟨id, _ | ⟨b, l⟩⟩
      · rw [can_skip_multi_eq es seqs pol hpol (by rw [hd]; simp)] at h
        exact absurd h (by simp)
      · cases hlook : seqLookup seqs id with
        | none =>
          rw [can_skip_notprobed_eq es seqs pol id hpol hd (by rw [hlook]; rfl)] at h
          exact absurd h (by simp)
        | some seq =>
          cases hsp : seq.static_probe with
          | none =>
            rw [can_skip_notprobed_eq es seqs pol id hpol hd
              (by rw [hlook, Option.some_bind, hsp])] at h
            exact absurd h (by simp)
          | some probe =>
            cases hms : probe.main_subimage with
            | none =>
              rw [can_skip_nosub_eq es seqs pol id seq probe hpol hd hlook hsp hms] at h
              exact absurd h (by simp)
            | some sub =>
              cases hch : listSetEq (sub.channels.map (fun ch => ch.name))
                  (es.output_channels.map (fun ch => ch.source.channel_name)) with
              | false =>
                rw [can_skip_channels_eq es seqs pol id seq probe sub hpol hd hlook hsp
                  hms hch] at h
                exact absurd h (by simp)
              | true =>
                by_cases hcomp : normalizeSourceCompression
                    (get_compression_from_probe probe 0) = pyLower es.compression
                · by_cases hcount : sub.attributes.attributes.length =
                      es.output_attributes.attributes.length
                  · cases hfind : es.output_attributes.attributes.find?
                        (fun a => (sub.attributes.get_by_name a.name).isNone) with
                    | some bad =>
                      rw [can_skip_attrname_eq es seqs pol id seq probe sub bad hpol hd
                        hlook hsp hms hch hcomp hcount hfind] at h
                      exact absurd h (by simp)
                    | none =>
                      cases hover : es.output_channels.any
                          (fun ch => ch.override_format.isSome) with
                      | true =>
                        rw [can_skip_override_eq es seqs pol id seq probe sub hpol hd
                          hlook hsp hms hch hcomp hcount hfind hover] at h
                        exact absurd h (by simp)
                      | false =>
                        refine ⟨hpol, id, seq, probe, sub, hd, hlook, hsp, hms,
                          (listSetEq_iff _ _).mp hch, hcomp, hcount, ?_, ?_⟩
                        · intro a ha
                          have h2 := List.find?_eq_none.mp hfind a ha
                          cases hget : sub.attributes.get_by_name a.name
                          · rw [hget] at h2
                            simp at h2
                          · simp
                        · intro ch hchm
                          have h2 := List.any_eq_false.mp hover ch hchm
                          cases hg : ch.override_format
                          · rfl
                          · rw [hg] at h2
                            simp at h2
                  · rw [can_skip_attrcount_eq es seqs pol id seq probe sub hpol hd hlook
                      hsp hms hch hcomp hcount] at h
                    exact absurd h (by simp)
                · rw [can_skip_compression_eq es seqs pol id seq probe sub hpol hd hlook
                    hsp hms hch hcomp] at h
                  exact absurd h (by simp)
      · rw [can_skip_multi_eq es seqs pol hpol (by rw [hd]; simp)] at h
        exact absurd h (by simp)
  · intro h
    rw [can_skip_success_eq es seqs pol h]

theorem mapOutputAttrValues_find (es : ExportSpec) (f : String → String)
    (p : String → Bool) :
    (mapOutputAttrValues es f).output_attributes.attributes.find? (fun a => p a.name) =
      (es.output_attributes.attributes.find? (fun a => p a.name)).map
        (fun a => { a with value := f a.value }) := by
  show (es.output_attributes.attributes.map (fun a => { a with value := f a.value })).find?
    (fun a => p a.name) = _
  rw [List.find?_map]
  rfl

theorem can_skip_value_blind (es : ExportSpec) (seqs : SequenceMap) (pol : String)
    (f : String → String) :
    can_skip_recompression (mapOutputAttrValues es f) seqs pol =
      can_skip_recompression es seqs pol := by
  have hlen : (mapOutputAttrValues es f).output_attributes.attributes.length =
      es.output_attributes.attributes.length := List.length_map _ _
  by_cases hpol : pol = "always"
  · rw [can_skip_policy_eq _ seqs pol hpol, can_skip_policy_eq es seqs pol hpol]
  · have hdisteq : distinctSourceIds (mapOutputAttrValues es f) = distinctSourceIds es := rfl
    rcases hd1 : decide ((distinctSourceIds es).length = 1) with _ | _
    · have hne : (distinctSourceIds es).length ≠ 1 := of_decide_eq_false hd1
      rw [can_skip_multi_eq _ seqs pol hpol (by rw [hdisteq]; exact hne),
        can_skip_multi_eq es seqs pol hpol hne, hdisteq]
    · have h1 : (distinctSourceIds es).length = 1 := of_decide_eq_true hd1
      obtain ⟨id, hd⟩ : ∃ id, distinctSourceIds es = [id] := by
        rcases hds : distinctSourceIds es with _ | ⟨a, _ | _⟩
        · rw [hds] at h1; simp at h1
        · exact ⟨a, rfl⟩
        · rw [hds] at h1; simp at h1
      have hd' : distinctSourceIds (mapOutputAttrValues es f) = [id] := by
        rw [hdisteq, hd]
      cases hlook : seqLookup seqs id with
      | none =>
        rw [can_skip_notprobed_eq _ seqs pol id hpol hd' (by rw [hlook]; rfl),
          can_skip_notprobed_eq es seqs pol id hpol hd (by rw [hlook]; rfl)]
      | some seq =>
        cases hsp : seq.static_probe with
        | none =>
          rw [can_skip_notprobed_eq _ seqs pol id hpol hd'
              (by rw [hlook, Option.some_bind, hsp]),
            can_skip_notprobed_eq es seqs pol id hpol hd
              (by rw [hlook, Option.some_bind, hsp])]
        | some probe =>
          cases hms : probe.main_subimage with
          | none =>
            rw [can_skip_nosub_eq _ seqs pol id seq probe hpol hd' hlook hsp hms,
              can_skip_nosub_eq es seqs pol id seq probe hpol hd hlook hsp hms]
          | some sub =>
            have hchans : (mapOutputAttrValues es f).output_channels =
              es.output_channels := rfl
            cases hch : listSetEq (sub.channels.map (fun ch => ch.name))
                (es.output_channels.map (fun ch => ch.source.channel_name)) with
            | false =>
              rw [can_skip_channels_eq _ seqs pol id seq probe sub hpol hd' hlook hsp hms
                  (by rw [hchans]; exact hch),
                can_skip_channels_eq es seqs pol id seq probe sub hpol hd hlook hsp
                  hms hch]
            | true =>
              have hcompeq : pyLower (mapOutputAttrValues es f).compression =
                pyLower es.compression := rfl
              by_cases hcomp : normalizeSourceCompression
                  (get_compression_from_probe probe 0) = pyLower es.compression
              · by_cases hcount : sub.attributes.attributes.length =
                    es.output_attributes.attributes.length
                · cases hfind : es.output_attributes.attributes.find?
                      (fun a => (sub.attributes.get_by_name a.name).isNone) with
                  | some bad =>
                    have hfind2 := mapOutputAttrValues_find es f
                      (fun n => (sub.attributes.get_by_name n).isNone)
                    rw [hfind, Option.map_some'] at hfind2
                    rw [can_skip_attrname_eq _ seqs pol id seq probe sub _ hpol hd' hlook
                        hsp hms (by rw [hchans]; exact hch) (by rw [hcompeq]; exact hcomp)
                        (by rw [hlen]; exact hcount) hfind2,
                      can_skip_attrname_eq es seqs pol id seq probe sub bad hpol hd hlook
                        hsp hms hch hcomp hcount hfind]
                  | none =>
                    have hfind2 := mapOutputAttrValues_find es f
                      (fun n => (sub.attributes.get_by_name n).isNone)
                    rw [hfind, Option.map_none'] at hfind2
                    cases hover : es.output_channels.any
                        (fun ch => ch.override_format.isSome) with
                    | true =>
                      rw [can_skip_override_eq _ seqs pol id seq probe sub hpol hd' hlook
                          hsp hms (by rw [hchans]; exact hch) (by rw [hcompeq]; exact hcomp)
                          (by rw [hlen]; exact hcount) hfind2
                          (by rw [hchans]; exact hover),
                        can_skip_override_eq es seqs pol id seq probe sub hpol hd hlook
                          hsp hms hch hcomp hcount hfind hover]
                    | false =>
                      have hnames : ∀ a ∈ es.output_attributes.attributes,
                          (sub.attributes.get_by_name a.name).isSome := by
                        intro a ha
                        have h2 := List.find?_eq_none.mp hfind a ha
                        cases hget : sub.attributes.get_by_name a.name
                        · rw [hget] at h2
                          simp at h2
                        · simp
                      have hovers : ∀ ch ∈ es.output_channels, ch.override_format = none := by
                        intro ch hchm
                        have h2 := List.any_eq_false.mp hover ch hchm
                        cases hg : ch.override_format
                        · rfl
                        · rw [hg] at h2
                          simp at h2
                      have hacp : AllChecksPass es seqs pol :=
                        ⟨hpol, id, seq, probe, sub, hd, hlook, hsp, hms,
                          (listSetEq_iff _ _).mp hch, hcomp, hcount, hnames, hovers⟩
                      have hacp2 : AllChecksPass (mapOutputAttrValues es f) seqs pol := by
                        refine ⟨hpol, id, seq, probe, sub, hd', hlook, hsp, hms,
                          (listSetEq_iff _ _).mp (by rw [hchans]; exact hch),
                          (by rw [hcompeq]; exact hcomp), (by rw [hlen]; exact hcount),
                          ?_, (by rw [hchans]; exact hovers)⟩
                        intro a ha
                        rw [show (mapOutputAttrValues es f).output_attributes.attributes =
                          es.output_attributes.attributes.map
                            (fun a => { a with value := f a.value }) from rfl] at ha
                        rw [List.mem_map] at ha
                        obtain ⟨a0, ha0, rfl⟩ := ha
                        exact hnames a0 ha0
                      rw [can_skip_success_eq _ seqs pol hacp2,
                        can_skip_success_eq es seqs pol hacp]
                · rw [can_skip_attrcount_eq _ seqs pol id seq probe sub hpol hd' hlook hsp
                      hms (by rw [hchans]; exact hch) (by rw [hcompeq]; exact hcomp)
                      (by rw [hlen]; exact hcount),
                    can_skip_attrcount_eq es seqs pol id seq probe sub hpol hd hlook hsp
                      hms hch hcomp hcount, hlen]
              · rw [can_skip_compression_eq _ seqs pol id seq probe sub hpol hd' hlook hsp
                    hms (by rw [hchans]; exact hch) (by rw [hcompeq]; exact hcomp),
                  can_skip_compression_eq es seqs pol id seq probe sub hpol hd hlook hsp
                    hms hch hcomp, hcompeq]

/-- C1: `can_skip_recompression` succeeds — with the reason string
ending in "identical copy possible" — exactly when the spec's checks
all pass (`AllChecksPass`); the checks are evaluated in the spec's
order and short-circuit on the first failure, each failing check
producing its own reason string (policy `always`; distinct source
sequence count not one; sequence missing or unprobed; no primary
sub-image; source-channel set not exactly the source's channel set;
case-insensitive compression mismatch; attribute count mismatch;
attribute name missing; format override); attribute values are never
compared (replacing every output-attribute value leaves the result
unchanged); and the function is a pure Lean function of its
arguments. -/
theorem C1_can_skip_recompression (es : ExportSpec) (seqs : SequenceMap) (pol : String) :
    ((can_skip_recompression es seqs pol).1 = true ↔ AllChecksPass es seqs pol) ∧
    (AllChecksPass es seqs pol →
      can_skip_recompression es seqs pol =
        (true, "Can skip recompression: " ++ "identical copy possible")) ∧
    (pol = "always" →
      can_skip_recompression es seqs pol =
        (false, "Compression policy: always recompress")) ∧
    (pol ≠ "always" → (distinctSourceIds es).length ≠ 1 →
      can_skip_recompression es seqs pol =
        (false, "Multiple source sequences (" ++
          toString (distinctSourceIds es).length ++ ")")) ∧
    (∀ id, pol ≠ "always" → distinctSourceIds es = [id] →
      (seqLookup seqs id).bind (fun s => s.static_probe) = none →
      can_skip_recompression es seqs pol =
        (false, "Source sequence " ++ quoted id ++ " not found or not probed")) ∧
    (∀ id seq probe, pol ≠ "always" → distinctSourceIds es = [id] →
      seqLookup seqs id = some seq → seq.static_probe = some probe →
      probe.main_subimage = none →
      can_skip_recompression es seqs pol =
        (false, "Source file has no main subimage")) ∧
    (∀ id seq probe sub, pol ≠ "always" → distinctSourceIds es = [id] →
      seqLookup seqs id = some seq → seq.static_probe = some probe →
      probe.main_subimage = some sub →
      listSetEq (sub.channels.map (fun ch => ch.name))
        (es.output_channels.map (fun ch => ch.source.channel_name)) = false →
      can_skip_recompression es seqs pol =
        (false, "Output is subset/superset of source channels")) ∧
    (∀ id seq probe sub, pol ≠ "always" → distinctSourceIds es = [id] →
      seqLookup seqs id = some seq → seq.static_probe = some probe →
      probe.main_subimage = some sub →
      listSetEq (sub.channels.map (fun ch => ch.name))
        (es.output_channels.map (fun ch => ch.source.channel_name)) = true →
      normalizeSourceCompression (get_compression_from_probe probe 0) ≠
        pyLower es.compression →
      can_skip_recompression es seqs pol =
        (false, "Compression mismatch: " ++
          normalizeSourceCompression (get_compression_from_probe probe 0) ++ " vs " ++
          pyLower es.compression)) ∧
    (∀ f, can_skip_recompression (mapOutputAttrValues es f) seqs pol =
      can_skip_recompression es seqs pol) := by
  refine ⟨can_skip_true_iff es seqs pol, ?_, can_skip_policy_eq es seqs pol,
    can_skip_multi_eq es seqs pol, can_skip_notprobed_eq es seqs pol,
    can_skip_nosub_eq es seqs pol, can_skip_channels_eq es seqs pol,
    can_skip_compression_eq es seqs pol, can_skip_value_blind es seqs pol⟩
  intro h
  exact can_skip_success_eq es seqs pol h

/-- C1 witness: the concrete all-checks-pass spec succeeds, flipping
the policy to `always` fails with the policy reason, and the two-source
variant fails with the multiple-sources reason. -/
theorem C1_can_skip_recompression_witness :
    (can_skip_recompression exSpec exSeqsA "skip").1 = true ∧
    can_skip_recompression exSpec exSeqsA "always" =
      (false, "Compression policy: always recompress") := by
  constructor
  · refine (C1_can_skip_recompression exSpec exSeqsA "skip").1.mpr
      ⟨by decide, "seqA", exSeqA, exProbe, exSub, by decide, by decide, by decide,
        by decide, (listSetEq_iff _ _).mp (by decide), by decide, by decide, ?_, ?_⟩
    · intro a ha
      fin_cases ha <;> decide
    · intro ch hch
      fin_cases hch <;> decide
  · exact (C1_can_skip_recompression exSpec exSeqsA "always").2.2.1 rfl

theorem findExpDown_exact (a b : Nat) :
    ∀ (fuel : Nat) (e e₀ : ℤ), e₀ ≤ e → (e - e₀).toNat < fuel →
      (∀ e₂, e₀ < e₂ → e₂ ≤ e → pow2le e₂ a b = false) →
      pow2le e₀ a b = true →
      findExpDown fuel e a b = some e₀ := by
  intro fuel
  induction fuel with
  | zero => intro e e₀ h1 h2 _ _; omega
  | succ n ih =>
    intro e e₀ h1 h2 hfail hok
    unfold findExpDown
    by_cases he : e = e₀
    · subst he
      rw [hok]
      rfl
    · have hlt : e₀ < e := lt_of_le_of_ne h1 (fun h => he h.symm)
      rw [hfail e hlt le_rfl]
      simp only [Bool.false_eq_true, if_false]
      exact ih (e - 1) e₀ (by omega) (by omega) (fun e₂ hgt hle => hfail e₂ hgt (by omega)) hok

theorem pow2le_self (n : Nat) (hn : n ≠ 0) : pow2le 0 n n = true := by
  unfold pow2le
  simp

theorem pow2le_self_false (n : Nat) (hn : n ≠ 0) (e : ℤ) (he : 0 < e) :
    pow2le e n n = false := by
  unfold pow2le
  rw [if_pos (le_of_lt he)]
  simp only [decide_eq_false_iff_not, not_le]
  have h2 : 2 ≤ 2 ^ e.toNat := by
    calc 2 = 2 ^ 1 := rfl
    _ ≤ 2 ^ e.toNat := Nat.pow_le_pow_right (by omega) (by omega)
  calc n < n * 2 := by omega
  _ ≤ n * 2 ^ e.toNat := Nat.mul_le_mul_left n h2

theorem flPair_self (n : Nat) (hn : n ≠ 0) : flPair n n = (2 ^ 52, 2 ^ 52) := by
  have hfed : findExpDown 1401 200 n n = some 0 :=
    findExpDown_exact n n 1401 200 0 (by omega) (by omega)
      (fun e₂ hgt _ => pow2le_self_false n hn e₂ hgt) (pow2le_self n hn)
  unfold flPair
  rw [if_neg (by simp [hn]), hfed]
  have hdiv : n * 2 ^ 52 / n = 2 ^ 52 := Nat.mul_div_cancel_left _ (Nat.pos_of_ne_zero hn)
  have hmod : n * 2 ^ 52 % n = 0 := Nat.mul_mod_right n _
  simp only [show ((0 : ℤ) ≤ 52) = True by simp, if_true]
  unfold rneDiv
  rw [show ((52 : ℤ) - 0).toNat = 52 by rfl]
  simp only [hdiv, hmod]
  rw [if_pos (by omega : 2 * 0 < n)]

theorem pyPercentInt_self (n : Nat) (hn : n ≠ 0) : pyPercentInt n n = some 100 := by
  unfold pyPercentInt
  rw [if_neg hn]
  rw [flPair_self n hn]
  have h2 : flPair (100 * 2 ^ 52) (2 ^ 52) = (100 * 2 ^ 46, 2 ^ 46) := by
    decide
  dsimp only
  rw [h2]
  norm_num

/-- C7 counterexample: `increment()` does not return `floor(k/n*100)`.
With `total = 100`, after the 29th successful increment the code
returns 28 (the binary64 evaluation of `int((29/100)*100)`), while
`floor(29/100*100) = 29`. -/
theorem C7_counterexample :
    AtomicProgress.increment { completed := 28, total := 100, last_logged_frame := 1 } 29 =
      some ({ completed := 29, total := 100, last_logged_frame := 29 }, 28) ∧
    ⌊(29 : ℚ) / 100 * 100⌋ = 29 ∧ (28 : ℤ) ≠ 29 := by
  refine ⟨by decide, by norm_num, by decide⟩

theorem pow2le_iff (e : ℤ) (a b : Nat) (hb : 0 < b) :
    pow2le e a b = true ↔ (2:ℚ) ^ e ≤ (a:ℚ) / b := by
  have hbq : (0:ℚ) < (b:ℚ) := by exact_mod_cast hb
  unfold pow2le
  by_cases he : 0 ≤ e
  · rw [if_pos he, decide_eq_true_iff, le_div_iff₀ hbq]
    have hexp : (2:ℚ) ^ e = ((2 ^ e.toNat : Nat) : ℚ) := by
      push_cast
      rw [← zpow_natCast]
      congr 1
      omega
    rw [hexp]
    rw [show ((2 ^ e.toNat : Nat) : ℚ) * b = ((2 ^ e.toNat * b : Nat) : ℚ) by push_cast ; ring]
    rw [Nat.cast_le, Nat.mul_comm]
  · rw [if_neg he, decide_eq_true_iff]
    push_neg at he
    have hexp : (2:ℚ) ^ e = (((2:ℚ) ^ ((-e).toNat : ℤ)))⁻¹ := by
      rw [← zpow_neg]
      congr 1
      omega
    rw [hexp, zpow_natCast, inv_eq_one_div, div_le_div_iff (by positivity) hbq, one_mul]
    rw [show (a:ℚ) * 2 ^ (-e).toNat = ((a * 2 ^ (-e).toNat : Nat) : ℚ) by push_cast ; ring]
    rw [Nat.cast_le]

theorem findExpDown_some_le (a b : Nat) :
    ∀ (fuel : Nat) (e e₀ : ℤ), findExpDown fuel e a b = some e₀ →
      pow2le e₀ a b = true ∧ e₀ ≤ e := by
  intro fuel
  induction fuel with
  | zero => intro e e₀ h; exact absurd h (by simp [findExpDown])
  | succ n ih =>
    intro e e₀ h
    unfold findExpDown at h
    by_cases hp : pow2le e a b = true
    · rw [hp, if_pos rfl] at h
      injection h with h
      subst h
      exact ⟨hp, le_rfl⟩
    · rw [eq_false_of_ne_true hp] at h
      simp only [Bool.false_eq_true, if_false] at h
      obtain ⟨h1, h2⟩ := ih (e - 1) e₀ h
      exact ⟨h1, by omega⟩

theorem findExpDown_upper (a b : Nat) (hb : 0 < b) :
    ∀ (fuel : Nat) (e e₀ : ℤ), (a:ℚ) / b < 2 ^ (e + 1) →
      findExpDown fuel e a b = some e₀ → (a:ℚ) / b < 2 ^ (e₀ + 1) := by
  intro fuel
  induction fuel with
  | zero => intro e e₀ _ h; exact absurd h (by simp [findExpDown])
  | succ n ih =>
    intro e e₀ hub h
    unfold findExpDown at h
    by_cases hp : pow2le e a b = true
    · rw [hp, if_pos rfl] at h
      injection h with h
      subst h
      exact hub
    · rw [eq_false_of_ne_true hp] at h
      simp only [Bool.false_eq_true, if_false] at h
      have hlt : (a:ℚ) / b < 2 ^ e := by
        have := (pow2le_iff e a b hb).not.mp (by simp [hp])
        linarith [not_le.mp this]
      exact ih (e - 1) e₀ (by rw [show e - 1 + 1 = e by ring] ; exact hlt) h

theorem findExpDown_mono (a b c d : Nat) (hb : 0 < b) (hd : 0 < d)
    (hq : (a:ℚ) / b ≤ (c:ℚ) / d) :
    ∀ (fuel : Nat) (e e₀ : ℤ), findExpDown fuel e a b = some e₀ →
      ∃ e₁, findExpDown fuel e c d = some e₁ ∧ e₀ ≤ e₁ := by
  intro fuel
  induction fuel with
  | zero => intro e e₀ h; exact absurd h (by simp [findExpDown])
  | succ n ih =>
    intro e e₀ h
    unfold findExpDown at h ⊢
    by_cases hp : pow2le e a b = true
    · rw [hp, if_pos rfl] at h
      injection h with h
      subst h
      have hp2 : pow2le e c d = true :=
        (pow2le_iff e c d hd).mpr (le_trans ((pow2le_iff e a b hb).mp hp) hq)
      rw [hp2, if_pos rfl]
      exact ⟨e, rfl, le_rfl⟩
    · rw [eq_false_of_ne_true hp] at h
      simp only [Bool.false_eq_true, if_false] at h
      by_cases hp2 : pow2le e c d = true
      · rw [hp2, if_pos rfl]
        obtain ⟨_, hle⟩ := findExpDown_some_le a b n (e - 1) e₀ h
        exact ⟨e, rfl, by omega⟩
      · rw [eq_false_of_ne_true hp2]
        simp only [Bool.false_eq_true, if_false]
        exact ih (e - 1) e₀ h


theorem div_decomp (A B : Nat) (hB : 0 < B) :
    (A:ℚ) / B = ((A / B : Nat) : ℚ) + ((A % B : Nat) : ℚ) / B := by
  have hBq : ((B:ℚ)) ≠ 0 := by positivity
  have h : (B * (A / B) + A % B : Nat) = A := Nat.div_add_mod A B
  have hq : ((B:ℚ)) * ((A / B : Nat) : ℚ) + ((A % B : Nat) : ℚ) = (A:ℚ) := by
    exact_mod_cast congrArg (fun n : Nat => (n : ℚ)) h
  field_simp
  linear_combination -hq

theorem rneDiv_bounds (A B : Nat) : A / B ≤ rneDiv A B ∧ rneDiv A B ≤ A / B + 1 := by
  unfold rneDiv
  dsimp only
  split_ifs <;> omega

theorem rneDiv_eq_low (A B : Nat) (h : 2 * (A % B) < B) : rneDiv A B = A / B := by
  unfold rneDiv
  dsimp only
  rw [if_pos h]

theorem rneDiv_eq_high (A B : Nat) (h : B < 2 * (A % B)) : rneDiv A B = A / B + 1 := by
  unfold rneDiv
  dsimp only
  rw [if_neg (by omega), if_pos h]

theorem rneDiv_eq_tie (A B : Nat) (h : 2 * (A % B) = B) :
    rneDiv A B = if A / B % 2 = 0 then A / B else A / B + 1 := by
  unfold rneDiv
  dsimp only
  rw [if_neg (by omega), if_neg (by omega)]

theorem rneDiv_le (A B : Nat) (hB : 0 < B) : (rneDiv A B : ℚ) ≤ (A:ℚ) / B + 1 / 2 := by
  have hBq : (0:ℚ) < (B:ℚ) := by exact_mod_cast hB
  have hd := div_decomp A B hB
  rcases Nat.lt_trichotomy (2 * (A % B)) B with h | h | h
  · rw [rneDiv_eq_low A B h]
    have hx : (0:ℚ) ≤ ((A % B : Nat) : ℚ) / B := by positivity
    linarith
  · rw [rneDiv_eq_tie A B h]
    have hx : ((A % B : Nat) : ℚ) / B = 1 / 2 := by
      rw [div_eq_div_iff (ne_of_gt hBq) (by norm_num)]
      exact_mod_cast (by omega : (A % B) * 2 = 1 * B)
    split_ifs <;> push_cast <;> linarith
  · rw [rneDiv_eq_high A B h]
    have hx : (1:ℚ) / 2 < ((A % B : Nat) : ℚ) / B := by
      rw [div_lt_div_iff (by norm_num) hBq]
      exact_mod_cast (by omega : 1 * B < (A % B) * 2)
    push_cast
    linarith

theorem rneDiv_ge (A B : Nat) (hB : 0 < B) : (A:ℚ) / B - 1 / 2 ≤ (rneDiv A B : ℚ) := by
  have hBq : (0:ℚ) < (B:ℚ) := by exact_mod_cast hB
  have hd := div_decomp A B hB
  rcases Nat.lt_trichotomy (2 * (A % B)) B with h | h | h
  · rw [rneDiv_eq_low A B h]
    have hx : ((A % B : Nat) : ℚ) / B < 1 / 2 := by
      rw [div_lt_div_iff hBq (by norm_num)]
      exact_mod_cast (by omega : (A % B) * 2 < 1 * B)
    linarith
  · rw [rneDiv_eq_tie A B h]
    have hx : ((A % B : Nat) : ℚ) / B = 1 / 2 := by
      rw [div_eq_div_iff (ne_of_gt hBq) (by norm_num)]
      exact_mod_cast (by omega : (A % B) * 2 = 1 * B)
    split_ifs <;> push_cast <;> linarith
  · rw [rneDiv_eq_high A B h]
    have hx : ((A % B : Nat) : ℚ) / B ≤ 1 := by
      rw [div_le_one hBq]
      exact_mod_cast le_of_lt (Nat.mod_lt A hB)
    push_cast
    linarith

theorem natDiv_mono_of_le (A B C D : Nat) (hq : (A:ℚ) / B ≤ (C:ℚ) / D) :
    A / B ≤ C / D := by
  have h1 : (⌊(A:ℚ) / (B:ℚ)⌋₊ : ℕ) = A / B := @Nat.floor_div_nat ℚ _ _ A B
  have h2 : (⌊(C:ℚ) / (D:ℚ)⌋₊ : ℕ) = C / D := @Nat.floor_div_nat ℚ _ _ C D
  rw [← h1, ← h2]
  exact Nat.floor_mono hq

theorem rneDiv_mono (A B C D : Nat) (hB : 0 < B) (hD : 0 < D)
    (hq : (A:ℚ) / B ≤ (C:ℚ) / D) : rneDiv A B ≤ rneDiv C D := by
  have hm0 : A / B ≤ C / D := natDiv_mono_of_le A B C D hq
  by_cases heq : A / B = C / D
  · have hBq : (0:ℚ) < (B:ℚ) := by exact_mod_cast hB
    have hDq : (0:ℚ) < (D:ℚ) := by exact_mod_cast hD
    have hdA := div_decomp A B hB
    have hdC := div_decomp C D hD
    have hx : ((A % B : Nat) : ℚ) / B ≤ ((C % D : Nat) : ℚ) / D := by
      rw [hdA, hdC, heq] at hq
      linarith
    rcases Nat.lt_trichotomy (2 * (A % B)) B with h | h | h
    · rw [rneDiv_eq_low A B h]
      have h2 := rneDiv_bounds C D
      omega
    · rw [rneDiv_eq_tie A B h]
      have hxA : ((A % B : Nat) : ℚ) / B = 1 / 2 := by
        rw [div_eq_div_iff (ne_of_gt hBq) (by norm_num)]
        exact_mod_cast (by omega : (A % B) * 2 = 1 * B)
      rcases Nat.lt_trichotomy (2 * (C % D)) D with h2 | h2 | h2
      · exfalso
        have hxC : ((C % D : Nat) : ℚ) / D < 1 / 2 := by
          rw [div_lt_div_iff hDq (by norm_num)]
          exact_mod_cast (by omega : (C % D) * 2 < 1 * D)
        linarith
      · rw [rneDiv_eq_tie C D h2]
        split_ifs <;> omega
      · rw [rneDiv_eq_high C D h2]
        split_ifs <;> omega
    · rw [rneDiv_eq_high A B h]
      have hxA : (1:ℚ) / 2 < ((A % B : Nat) : ℚ) / B := by
        rw [div_lt_div_iff (by norm_num) hBq]
        exact_mod_cast (by omega : 1 * B < (A % B) * 2)
      rcases Nat.lt_trichotomy (2 * (C % D)) D with h2 | h2 | h2
      · exfalso
        have hxC : ((C % D : Nat) : ℚ) / D < 1 / 2 := by
          rw [div_lt_div_iff hDq (by norm_num)]
          exact_mod_cast (by omega : (C % D) * 2 < 1 * D)
        linarith
      · exfalso
        have hxC : ((C % D : Nat) : ℚ) / D = 1 / 2 := by
          rw [div_eq_div_iff (ne_of_gt hDq) (by norm_num)]
          exact_mod_cast (by omega : (C % D) * 2 = 1 * D)
        linarith
      · rw [rneDiv_eq_high C D h2]
        omega
  · have h1 := rneDiv_bounds A B
    have h2 := rneDiv_bounds C D
    omega

theorem pairVal_nonneg (p : Nat × Nat) : 0 ≤ pairVal p := by
  unfold pairVal
  positivity

theorem flPair_zero_num (a b : Nat) (h : a = 0 ∨ b = 0) : flPair a b = (0, 1) := by
  unfold flPair
  rw [if_pos h]

theorem flPair_none (a b : Nat) (ha : a ≠ 0) (hb : b ≠ 0)
    (hf : findExpDown 1401 200 a b = none) : flPair a b = (0, 1) := by
  unfold flPair
  rw [if_neg (not_or.mpr ⟨ha, hb⟩), hf]

theorem flPair_found (a b : Nat) (e : ℤ) (ha : a ≠ 0) (hb : b ≠ 0)
    (hf : findExpDown 1401 200 a b = some e) (he : e ≤ 52) :
    flPair a b = (rneDiv (a * 2 ^ ((52:ℤ) - e).toNat) b, 2 ^ ((52:ℤ) - e).toNat) := by
  unfold flPair
  rw [if_neg (not_or.mpr ⟨ha, hb⟩), hf]
  simp only [eq_true he, if_true]

theorem pairVal_zero : pairVal (0, 1) = 0 := by
  unfold pairVal
  norm_num

theorem scaled_div_eq (a b s : Nat) :
    ((a * 2 ^ s : Nat) : ℚ) / b = (a:ℚ) / b * 2 ^ s := by
  push_cast
  ring

theorem two_pow_s_ge_one (s : Nat) : (1:ℚ) ≤ 2 ^ s := by
  exact_mod_cast Nat.one_le_two_pow

theorem flVal_found_le (a b : Nat) (e : ℤ) (hb : 0 < b) (ha : a ≠ 0) (he : e ≤ 52)
    (hf : findExpDown 1401 200 a b = some e) :
    pairVal (flPair a b) ≤ (a:ℚ) / b + 1 / 2 := by
  rw [flPair_found a b e ha (by omega) hf he]
  unfold pairVal
  have h2s : (0:ℚ) < ((2 ^ ((52:ℤ) - e).toNat : Nat) : ℚ) := by positivity
  rw [div_le_iff h2s]
  have hle := rneDiv_le (a * 2 ^ ((52:ℤ) - e).toNat) b hb
  rw [scaled_div_eq a b _] at hle
  have hone : (1:ℚ) ≤ ((2 ^ ((52:ℤ) - e).toNat : Nat) : ℚ) := by
    exact_mod_cast Nat.one_le_two_pow
  have hq0 : (0:ℚ) ≤ (a:ℚ) / b := by positivity
  push_cast at hle hone h2s ⊢
  nlinarith [hle, hone, mul_le_mul_of_nonneg_left hone (by norm_num : (0:ℚ) ≤ 1/2)]

theorem exp_le_45 (e : ℤ) (q : ℚ) (hl : (2:ℚ) ^ e ≤ q) (hub : q ≤ 2 ^ (45:ℤ)) :
    e ≤ 45 := by
  by_contra hgt
  push_neg at hgt
  have : (2:ℚ) ^ (45:ℤ) < 2 ^ e := by
    apply zpow_lt_zpow_right₀ (by norm_num) hgt
  linarith

theorem cast_pow2_toNat (e : ℤ) (he : e ≤ 52) :
    ((2 ^ ((52:ℤ) - e).toNat : Nat) : ℚ) = (2:ℚ) ^ ((52:ℤ) - e) := by
  push_cast
  rw [← zpow_natCast]
  congr 1
  omega

theorem q_pow53 : ((2 ^ 53 : ℕ) : ℚ) = (2:ℚ) ^ (53:ℤ) := by
  have h : (2:ℚ) ^ (53:ℤ) = (2:ℚ) ^ (53:ℕ) := by
    rw [← zpow_natCast]
    norm_num
  rw [h]
  push_cast
  norm_num

theorem q_pow52 : ((2 ^ 52 : ℕ) : ℚ) = (2:ℚ) ^ (52:ℤ) := by
  have h : (2:ℚ) ^ (52:ℤ) = (2:ℚ) ^ (52:ℕ) := by
    rw [← zpow_natCast]
    norm_num
  rw [h]
  push_cast
  norm_num

theorem flVal_found_upper (a b : Nat) (e : ℤ) (hb : 0 < b) (ha : a ≠ 0) (he : e ≤ 52)
    (hf : findExpDown 1401 200 a b = some e)
    (hu : (a:ℚ) / b < 2 ^ (e + 1)) :
    pairVal (flPair a b) ≤ (2:ℚ) ^ (e + 1) := by
  rw [flPair_found a b e ha (by omega) hf he]
  unfold pairVal
  dsimp only
  have h2s := cast_pow2_toNat e he
  have h2spos : (0:ℚ) < ((2 ^ ((52:ℤ) - e).toNat : Nat) : ℚ) := by positivity
  rw [div_le_iff h2spos]
  have hle := rneDiv_le (a * 2 ^ ((52:ℤ) - e).toNat) b hb
  rw [scaled_div_eq] at hle
  have hnpow : ((2:ℚ) ^ ((52:ℤ) - e).toNat) = ((2 ^ ((52:ℤ) - e).toNat : Nat) : ℚ) := by
    push_cast
    rfl
  rw [hnpow] at hle
  have hq2 : (a:ℚ) / b * ((2 ^ ((52:ℤ) - e).toNat : Nat) : ℚ) < 2 ^ (53:ℤ) := by
    calc (a:ℚ) / b * ((2 ^ ((52:ℤ) - e).toNat : Nat) : ℚ)
        < 2 ^ (e + 1) * ((2 ^ ((52:ℤ) - e).toNat : Nat) : ℚ) :=
          mul_lt_mul_of_pos_right hu h2spos
    _ = 2 ^ (53:ℤ) := by
          rw [h2s, ← zpow_add₀ (two_ne_zero)]
          congr 1
          ring
  have hm : rneDiv (a * 2 ^ ((52:ℤ) - e).toNat) b ≤ 2 ^ 53 := by
    by_contra hgt
    push_neg at hgt
    have hup : ((2:ℚ) ^ (53:ℕ)) + 1 ≤ ((rneDiv (a * 2 ^ ((52:ℤ) - e).toNat) b : ℕ) : ℚ) := by
      exact_mod_cast hgt
    have hz : ((2:ℚ) ^ (53:ℕ)) = (2:ℚ) ^ (53:ℤ) := by
      rw [← zpow_natCast]
      norm_num
    linarith
  calc ((rneDiv (a * 2 ^ ((52:ℤ) - e).toNat) b : ℕ) : ℚ)
      ≤ ((2 ^ 53 : ℕ) : ℚ) := by exact_mod_cast hm
  _ = 2 ^ (53:ℤ) := q_pow53
  _ = 2 ^ (e + 1) * ((2 ^ ((52:ℤ) - e).toNat : Nat) : ℚ) := by
        rw [h2s, ← zpow_add₀ (two_ne_zero)]
        congr 1
        ring

theorem flVal_found_lower (a b : Nat) (e : ℤ) (hb : 0 < b) (ha : a ≠ 0) (he : e ≤ 52)
    (hf : findExpDown 1401 200 a b = some e)
    (hl : (2:ℚ) ^ e ≤ (a:ℚ) / b) :
    (2:ℚ) ^ e ≤ pairVal (flPair a b) := by
  rw [flPair_found a b e ha (by omega) hf he]
  unfold pairVal
  dsimp only
  have h2s := cast_pow2_toNat e he
  have h2spos : (0:ℚ) < ((2 ^ ((52:ℤ) - e).toNat : Nat) : ℚ) := by positivity
  rw [le_div_iff h2spos]
  have hge := rneDiv_ge (a * 2 ^ ((52:ℤ) - e).toNat) b hb
  rw [scaled_div_eq] at hge
  have hnpow : ((2:ℚ) ^ ((52:ℤ) - e).toNat) = ((2 ^ ((52:ℤ) - e).toNat : Nat) : ℚ) := by
    push_cast
    rfl
  rw [hnpow] at hge
  have hq2 : (2:ℚ) ^ (52:ℤ) ≤ (a:ℚ) / b * ((2 ^ ((52:ℤ) - e).toNat : Nat) : ℚ) := by
    calc (2:ℚ) ^ (52:ℤ) = 2 ^ e * ((2 ^ ((52:ℤ) - e).toNat : Nat) : ℚ) := by
          rw [h2s, ← zpow_add₀ (two_ne_zero)]
          congr 1
          ring
    _ ≤ (a:ℚ) / b * ((2 ^ ((52:ℤ) - e).toNat : Nat) : ℚ) :=
          mul_le_mul_of_nonneg_right hl (le_of_lt h2spos)
  have hm : 2 ^ 52 ≤ rneDiv (a * 2 ^ ((52:ℤ) - e).toNat) b := by
    by_contra hgt
    push_neg at hgt
    have hup : ((rneDiv (a * 2 ^ ((52:ℤ) - e).toNat) b : ℕ) : ℚ) + 1 ≤ (2:ℚ) ^ (52:ℕ) := by
      exact_mod_cast hgt
    have hz : ((2:ℚ) ^ (52:ℕ)) = (2:ℚ) ^ (52:ℤ) := by
      rw [← zpow_natCast]
      norm_num
    linarith
  calc (2:ℚ) ^ e * ((2 ^ ((52:ℤ) - e).toNat : Nat) : ℚ)
      = 2 ^ (52:ℤ) := by
        rw [h2s, ← zpow_add₀ (two_ne_zero)]
        congr 1
        ring
  _ = ((2 ^ 52 : ℕ) : ℚ) := q_pow52.symm
  _ ≤ ((rneDiv (a * 2 ^ ((52:ℤ) - e).toNat) b : ℕ) : ℚ) := by exact_mod_cast hm

theorem flVal_found_mono_same (a b c d : Nat) (e : ℤ) (hb : 0 < b) (hd : 0 < d)
    (ha : a ≠ 0) (hc : c ≠ 0) (he : e ≤ 52)
    (hfa : findExpDown 1401 200 a b = some e) (hfc : findExpDown 1401 200 c d = some e)
    (hq : (a:ℚ) / b ≤ (c:ℚ) / d) :
    pairVal (flPair a b) ≤ pairVal (flPair c d) := by
  rw [flPair_found a b e ha (by omega) hfa he, flPair_found c d e hc (by omega) hfc he]
  unfold pairVal
  dsimp only
  have hscaled : ((a * 2 ^ ((52:ℤ) - e).toNat : ℕ) : ℚ) / b ≤
      ((c * 2 ^ ((52:ℤ) - e).toNat : ℕ) : ℚ) / d := by
    rw [scaled_div_eq, scaled_div_eq]
    exact mul_le_mul_of_nonneg_right hq (by positivity)
  have hmm := rneDiv_mono _ b _ d hb hd hscaled
  have hcast : ((rneDiv (a * 2 ^ ((52:ℤ) - e).toNat) b : ℕ) : ℚ) ≤
      ((rneDiv (c * 2 ^ ((52:ℤ) - e).toNat) d : ℕ) : ℚ) := by exact_mod_cast hmm
  gcongr

theorem flVal_mono (a b c d : Nat) (hb : 0 < b) (hd : 0 < d)
    (hq : (a:ℚ) / b ≤ (c:ℚ) / d) (hub : (c:ℚ) / d ≤ 2 ^ (45:ℤ)) :
    pairVal (flPair a b) ≤ pairVal (flPair c d) := by
  by_cases ha : a = 0
  · rw [flPair_zero_num a b (Or.inl ha), pairVal_zero]
    exact pairVal_nonneg _
  by_cases hc : c = 0
  · exfalso
    have hapos : 0 < a := Nat.pos_of_ne_zero ha
    have h1 : (0:ℚ) < (a:ℚ) / b := by positivity
    rw [hc] at hq
    norm_num at hq
    linarith
  cases hfa : findExpDown 1401 200 a b with
  | none =>
    rw [flPair_none a b ha (by omega) hfa, pairVal_zero]
    exact pairVal_nonneg _
  | some e =>
    obtain ⟨e₁, hfc, hee⟩ := findExpDown_mono a b c d hb hd hq 1401 200 e hfa
    have hl : (2:ℚ) ^ e ≤ (a:ℚ) / b :=
      (pow2le_iff e a b hb).mp (findExpDown_some_le a b 1401 200 e hfa).1
    have hl1 : (2:ℚ) ^ e₁ ≤ (c:ℚ) / d :=
      (pow2le_iff e₁ c d hd).mp (findExpDown_some_le c d 1401 200 e₁ hfc).1
    have he145 : e₁ ≤ 45 := exp_le_45 e₁ _ hl1 hub
    have he45 : e ≤ 45 := le_trans hee he145
    have h45lt : (2:ℚ) ^ (45:ℤ) < 2 ^ ((200:ℤ) + 1) :=
      zpow_lt_zpow_right₀ (by norm_num) (by norm_num)
    have hu : (a:ℚ) / b < 2 ^ (e + 1) :=
      findExpDown_upper a b hb 1401 200 e (by linarith) hfa
    have hu1 : (c:ℚ) / d < 2 ^ (e₁ + 1) :=
      findExpDown_upper c d hd 1401 200 e₁ (by linarith) hfc
    rcases eq_or_lt_of_le hee with heq | hlt
    · subst heq
      exact flVal_found_mono_same a b c d e hb hd ha hc (by omega) hfa hfc hq
    · calc pairVal (flPair a b) ≤ (2:ℚ) ^ (e + 1) :=
            flVal_found_upper a b e hb ha (by omega) hfa hu
      _ ≤ (2:ℚ) ^ e₁ := zpow_le_zpow_right₀ (by norm_num) (by omega)
      _ ≤ pairVal (flPair c d) :=
            flVal_found_lower c d e₁ hd hc (by omega) hfc hl1

theorem q_pow45 : ((2 ^ 45 : ℕ) : ℚ) = (2:ℚ) ^ (45:ℤ) := by
  have h : (2:ℚ) ^ (45:ℤ) = (2:ℚ) ^ (45:ℕ) := by
    rw [← zpow_natCast]
    norm_num
  rw [h]
  push_cast
  norm_num

theorem one_le_q_pow45 : (1:ℚ) ≤ 2 ^ (45:ℤ) := by
  rw [← q_pow45]
  exact_mod_cast Nat.one_le_two_pow

theorem flPair_denom_pos (a b : Nat) : 0 < (flPair a b).2 := by
  unfold flPair
  split_ifs with h
  · norm_num
  · cases hf : findExpDown 1401 200 a b with
    | none =>
      dsimp only
      norm_num
    | some e =>
      dsimp only
      split_ifs <;> positivity

theorem flVal_le (a b : Nat) (hb : 0 < b) (hub : (a:ℚ) / b ≤ 2 ^ (45:ℤ)) :
    pairVal (flPair a b) ≤ (a:ℚ) / b + 1 / 2 := by
  by_cases ha : a = 0
  · rw [flPair_zero_num a b (Or.inl ha), pairVal_zero]
    positivity
  cases hfa : findExpDown 1401 200 a b with
  | none =>
    rw [flPair_none a b ha (by omega) hfa, pairVal_zero]
    positivity
  | some e =>
    have hl : (2:ℚ) ^ e ≤ (a:ℚ) / b :=
      (pow2le_iff e a b hb).mp (findExpDown_some_le a b 1401 200 e hfa).1
    have he45 : e ≤ 45 := exp_le_45 e _ hl hub
    exact flVal_found_le a b e hb ha (by omega) hfa

theorem pyPercentInt_mono (n k j : Nat) (hn : n ≠ 0) (hk : k ≤ j) (hj : j ≤ n)
    (v w : ℤ) (hv : pyPercentInt k n = some v) (hw : pyPercentInt j n = some w) :
    v ≤ w := by
  unfold pyPercentInt at hv hw
  rw [if_neg hn] at hv hw
  dsimp only at hv hw
  injection hv with hv
  injection hw with hw
  subst hv
  subst hw
  have hnpos : 0 < n := Nat.pos_of_ne_zero hn
  have hnq : (0:ℚ) < (n:ℚ) := by exact_mod_cast hnpos
  have hq1 : (k:ℚ) / n ≤ (j:ℚ) / n := by
    gcongr
  have hjq1 : (j:ℚ) / n ≤ 1 := by
    rw [div_le_one hnq]
    exact_mod_cast hj
  have hub1 : (j:ℚ) / n ≤ 2 ^ (45:ℤ) := le_trans hjq1 one_le_q_pow45
  have hf1 := flVal_mono k n j n hnpos hnpos hq1 hub1
  have hd1 : 0 < (flPair k n).2 := flPair_denom_pos k n
  have hd2 : 0 < (flPair j n).2 := flPair_denom_pos j n
  have heqk : ((100 * (flPair k n).1 : ℕ) : ℚ) / (((flPair k n).2 : ℕ) : ℚ) =
      100 * pairVal (flPair k n) := by
    unfold pairVal
    push_cast
    ring
  have heqj : ((100 * (flPair j n).1 : ℕ) : ℚ) / (((flPair j n).2 : ℕ) : ℚ) =
      100 * pairVal (flPair j n) := by
    unfold pairVal
    push_cast
    ring
  have hq2 : ((100 * (flPair k n).1 : ℕ) : ℚ) / (((flPair k n).2 : ℕ) : ℚ) ≤
      ((100 * (flPair j n).1 : ℕ) : ℚ) / (((flPair j n).2 : ℕ) : ℚ) := by
    rw [heqk, heqj]
    linarith
  have hub2 : ((100 * (flPair j n).1 : ℕ) : ℚ) / (((flPair j n).2 : ℕ) : ℚ) ≤ 2 ^ (45:ℤ) := by
    rw [heqj]
    have hjv : pairVal (flPair j n) ≤ 3 / 2 := by
      have := flVal_le j n hnpos hub1
      linarith
    have h150 : (150:ℚ) ≤ 2 ^ (45:ℤ) := by
      rw [← q_pow45]
      exact_mod_cast (by norm_num : (150:ℕ) ≤ 2 ^ 45)
    linarith
  have hf2 := flVal_mono (100 * (flPair k n).1) (flPair k n).2
    (100 * (flPair j n).1) (flPair j n).2 hd1 hd2 hq2 hub2
  have hfinal : (flPair (100 * (flPair k n).1) (flPair k n).2).1 /
      (flPair (100 * (flPair k n).1) (flPair k n).2).2 ≤
      (flPair (100 * (flPair j n).1) (flPair j n).2).1 /
      (flPair (100 * (flPair j n).1) (flPair j n).2).2 := by
    apply natDiv_mono_of_le
    unfold pairVal at hf2
    exact hf2
  exact_mod_cast hfinal

theorem pyPercentInt_le_99 (n k : Nat) (hn : n ≠ 0) (hk : k < n) (hN : n ≤ 2 ^ 53)
    (v : ℤ) (hv : pyPercentInt k n = some v) : v ≤ 99 := by
  unfold pyPercentInt at hv
  rw [if_neg hn] at hv
  dsimp only at hv
  injection hv with hv
  subst hv
  have hnpos : 0 < n := Nat.pos_of_ne_zero hn
  have hnq : (0:ℚ) < (n:ℚ) := by exact_mod_cast hnpos
  have hq1 : (k:ℚ) / n ≤ ((2 ^ 53 - 1 : ℕ) : ℚ) / ((2 ^ 53 : ℕ) : ℚ) := by
    rw [div_le_div_iff hnq (by positivity)]
    have hkq : (k:ℚ) + 1 ≤ (n:ℚ) := by exact_mod_cast hk
    have hNq : (n:ℚ) ≤ ((2 ^ 53 : ℕ) : ℚ) := by exact_mod_cast hN
    have hsub : ((2 ^ 53 - 1 : ℕ) : ℚ) = ((2 ^ 53 : ℕ) : ℚ) - 1 := by
      have h1 : (1:ℕ) ≤ 2 ^ 53 := Nat.one_le_two_pow
      push_cast [Nat.cast_sub h1]
      ring
    rw [hsub]
    nlinarith [mul_le_mul_of_nonneg_right hkq
      (by positivity : (0:ℚ) ≤ ((2 ^ 53 : ℕ) : ℚ))]
  have hub1 : ((2 ^ 53 - 1 : ℕ) : ℚ) / ((2 ^ 53 : ℕ) : ℚ) ≤ 2 ^ (45:ℤ) := by
    have hle1 : ((2 ^ 53 - 1 : ℕ) : ℚ) / ((2 ^ 53 : ℕ) : ℚ) ≤ 1 := by
      rw [div_le_one (by positivity)]
      exact_mod_cast (by norm_num : (2 ^ 53 - 1 : ℕ) ≤ 2 ^ 53)
    exact le_trans hle1 one_le_q_pow45
  have hstep1 := flVal_mono k n (2 ^ 53 - 1) (2 ^ 53) hnpos (by norm_num) hq1 hub1
  have hc1 : flPair (2 ^ 53 - 1) (2 ^ 53) = (2 ^ 53 - 1, 2 ^ 53) := by decide
  rw [hc1] at hstep1
  have hd1 : 0 < (flPair k n).2 := flPair_denom_pos k n
  have heqk : ((100 * (flPair k n).1 : ℕ) : ℚ) / (((flPair k n).2 : ℕ) : ℚ) =
      100 * pairVal (flPair k n) := by
    unfold pairVal
    push_cast
    ring
  have heqc : ((100 * (2 ^ 53 - 1) : ℕ) : ℚ) / ((2 ^ 53 : ℕ) : ℚ) =
      100 * pairVal (2 ^ 53 - 1, 2 ^ 53) := by
    unfold pairVal
    push_cast
    ring
  have hq2 : ((100 * (flPair k n).1 : ℕ) : ℚ) / (((flPair k n).2 : ℕ) : ℚ) ≤
      ((100 * (2 ^ 53 - 1) : ℕ) : ℚ) / ((2 ^ 53 : ℕ) : ℚ) := by
    rw [heqk, heqc]
    linarith
  have hub2 : ((100 * (2 ^ 53 - 1) : ℕ) : ℚ) / ((2 ^ 53 : ℕ) : ℚ) ≤ 2 ^ (45:ℤ) := by
    rw [heqc]
    have hcv : pairVal (2 ^ 53 - 1, 2 ^ 53) ≤ 1 := by
      unfold pairVal
      rw [div_le_one (by positivity)]
      exact_mod_cast (by norm_num : (2 ^ 53 - 1 : ℕ) ≤ 2 ^ 53)
    have h150 : (100:ℚ) ≤ 2 ^ (45:ℤ) := by
      rw [← q_pow45]
      exact_mod_cast (by norm_num : (100:ℕ) ≤ 2 ^ 45)
    linarith
  have hstep2 := flVal_mono (100 * (flPair k n).1) (flPair k n).2
    (100 * (2 ^ 53 - 1)) (2 ^ 53) hd1 (by norm_num) hq2 hub2
  have hc2 : flPair (100 * (2 ^ 53 - 1)) (2 ^ 53) = (100 * 2 ^ 46 - 1, 2 ^ 46) := by decide
  rw [hc2] at hstep2
  have hfinal : (flPair (100 * (flPair k n).1) (flPair k n).2).1 /
      (flPair (100 * (flPair k n).1) (flPair k n).2).2 ≤ (100 * 2 ^ 46 - 1) / 2 ^ 46 := by
    apply natDiv_mono_of_le
    unfold pairVal at hstep2
    exact hstep2
  have h99 : (100 * 2 ^ 46 - 1) / 2 ^ 46 = 99 := by norm_num
  rw [h99] at hfinal
  exact_mod_cast hfinal

/-- C7 (amended): for every total `n ≥ 1`, `increment()` atomically adds
exactly one to the completed count, records the frame, and returns the
binary64 evaluation of `int((completed / total) * 100)` (not the exact
`floor(completed / total * 100)`, which it can undershoot); the returned
percentage is monotonically non-decreasing in the completed count, and
for totals up to `2 ^ 53` it equals `100` if and only if every frame
(`completed = total`) succeeded. -/
theorem C7_amended (n : Nat) (hn : 0 < n) :
    (∀ (p : AtomicProgress) (f : ℤ), p.total = n →
      ∃ pct : ℤ,
        AtomicProgress.increment p f =
          some ({ completed := p.completed + 1, total := n, last_logged_frame := f }, pct) ∧
        pyPercentInt (p.completed + 1) n = some pct) ∧
    (∀ k j : Nat, ∀ v w : ℤ, k ≤ j → j ≤ n →
      pyPercentInt k n = some v → pyPercentInt j n = some w → v ≤ w) ∧
    (∀ k : Nat, ∀ v : ℤ, k ≤ n → n ≤ 2 ^ 53 →
      pyPercentInt k n = some v → (v = 100 ↔ k = n)) := by
  refine ⟨?_, ?_, ?_⟩
  · intro p f hpt
    cases hpy : pyPercentInt (p.completed + 1) n with
    | none =>
      exfalso
      unfold pyPercentInt at hpy
      rw [if_neg (by omega)] at hpy
      dsimp only at hpy
      exact Option.noConfusion hpy
    | some pct =>
      refine ⟨pct, ?_, rfl⟩
      unfold AtomicProgress.increment
      dsimp only
      rw [hpt, hpy]
      rfl
  · intro k j v w hkj hjn hv hw
    exact pyPercentInt_mono n k j (by omega) hkj hjn v w hv hw
  · intro k v hkn hN hv
    constructor
    · intro hv100
      by_contra hne
      have hlt : k < n := lt_of_le_of_ne hkn hne
      have := pyPercentInt_le_99 n k (by omega) hlt hN v hv
      omega
    · intro hkeq
      subst hkeq
      rw [pyPercentInt_self k (by omega)] at hv
      injection hv with hv
      omega

theorem C7_amended_witness :
    AtomicProgress.increment { completed := 28, total := 100, last_logged_frame := 1 } 29 =
      some ({ completed := 29, total := 100, last_logged_frame := 29 }, 28) := by
  obtain ⟨pct, h1, h2⟩ := (C7_amended 100 (by norm_num)).1
    { completed := 28, total := 100, last_logged_frame := 1 } 29 rfl
  have h2x : pyPercentInt 29 100 = some pct := h2
  have h3 : pyPercentInt 29 100 = some 28 := by decide
  have h4 : pct = 28 := by
    have h5 := h2x.symm.trans h3
    injection h5
  subst h4
  exact h1

theorem parseDecAux_append_one (c : Char) :
    ∀ (xs : List Char) (acc : Nat),
      parseDecAux acc (xs ++ [c]) = parseDecAux acc xs * 10 + digitVal c := by
  intro xs
  induction xs with
  | nil => intro acc; rfl
  | cons x xs ih =>
    intro acc
    show parseDecAux (acc * 10 + digitVal x) (xs ++ [c]) =
      parseDecAux (acc * 10 + digitVal x) xs * 10 + digitVal c
    exact ih (acc * 10 + digitVal x)

theorem digitVal_ofNat (d : Nat) (hd : d < 10) :
    digitVal (Char.ofNat (48 + d)) = d := by
  interval_cases d <;> rfl

theorem isDig_ofNat (d : Nat) (hd : d < 10) :
    isDig (Char.ofNat (48 + d)) = true := by
  interval_cases d <;> rfl

theorem natDigitsGo_all_dig :
    ∀ (fuel n : Nat) (c : Char), c ∈ natDigitsGo fuel n → isDig c = true := by
  intro fuel
  induction fuel with
  | zero => intro n c hc; exact absurd hc (by simp [natDigitsGo])
  | succ f ih =>
    intro n c hc
    unfold natDigitsGo at hc
    by_cases hn : n < 10
    · rw [if_pos hn] at hc
      rw [List.mem_singleton] at hc
      subst hc
      exact isDig_ofNat n hn
    · rw [if_neg hn] at hc
      rw [List.mem_append] at hc
      rcases hc with hc | hc
      · exact ih (n / 10) c hc
      · rw [List.mem_singleton] at hc
        subst hc
        exact isDig_ofNat (n % 10) (Nat.mod_lt _ (by norm_num))

theorem natDigitsGo_ne_nil (fuel n : Nat) (h : 0 < fuel) : natDigitsGo fuel n ≠ [] := by
  cases fuel with
  | zero => omega
  | succ f =>
    unfold natDigitsGo
    split_ifs with hn
    · simp
    · intro hcontra
      exact absurd hcontra (by simp)

theorem parseDec_natDigitsGo :
    ∀ (fuel n : Nat), n < 10 ^ fuel → parseDecAux 0 (natDigitsGo fuel n) = n := by
  intro fuel
  induction fuel with
  | zero =>
    intro n hn
    interval_cases n
    rfl
  | succ f ih =>
    intro n hn
    unfold natDigitsGo
    by_cases h10 : n < 10
    · rw [if_pos h10]
      show parseDecAux (0 * 10 + digitVal (Char.ofNat (48 + n))) [] = n
      show 0 * 10 + digitVal (Char.ofNat (48 + n)) = n
      rw [digitVal_ofNat n h10]
      omega
    · rw [if_neg h10]
      rw [parseDecAux_append_one]
      have hdiv : n / 10 < 10 ^ f := by
        rw [Nat.div_lt_iff_lt_mul (by norm_num)]
        calc n < 10 ^ (f + 1) := hn
        _ = 10 ^ f * 10 := by ring
      rw [ih (n / 10) hdiv, digitVal_ofNat (n % 10) (Nat.mod_lt _ (by norm_num))]
      omega

theorem parseDec_natDigits (n : Nat) : parseDec (natDigits n) = n := by
  unfold parseDec natDigits
  have h1 : n < 10 ^ n := Nat.lt_pow_self (by norm_num) n
  have h2 : 10 ^ n ≤ 10 ^ (n + 1) := Nat.pow_le_pow_right (by norm_num) (by omega)
  exact parseDec_natDigitsGo (n + 1) n (by omega)

theorem parseDecAux_zeros :
    ∀ (j : Nat) (s : List Char), parseDecAux 0 (List.replicate j '0' ++ s) = parseDecAux 0 s := by
  intro j
  induction j with
  | zero => intro s; rfl
  | succ i ih =>
    intro s
    show parseDecAux (0 * 10 + digitVal '0') (List.replicate i '0' ++ s) = parseDecAux 0 s
    show parseDecAux 0 (List.replicate i '0' ++ s) = parseDecAux 0 s
    exact ih s

theorem parseDec_zfill (w n : Nat) : parseDec (zfill w (natDigits n)) = n := by
  unfold parseDec zfill
  rw [parseDecAux_zeros]
  exact parseDec_natDigits n

theorem zfill_all_dig (w n : Nat) (c : Char) (hc : c ∈ zfill w (natDigits n)) :
    isDig c = true := by
  unfold zfill at hc
  rw [List.mem_append] at hc
  rcases hc with hc | hc
  · rw [List.mem_replicate] at hc
    rw [hc.2]
    decide
  · exact natDigitsGo_all_dig (n + 1) n c hc

theorem zfill_ne_nil (w n : Nat) : zfill w (natDigits n) ≠ [] := by
  unfold zfill
  intro h
  rw [List.append_eq_nil] at h
  exact natDigitsGo_ne_nil (n + 1) n (by omega) h.2

theorem takeWhile_all_append (p : Char → Bool) :
    ∀ (ws : List Char) (x : Char) (S : List Char),
      (∀ c ∈ ws, p c = true) → p x = false →
      (ws ++ x :: S).takeWhile p = ws ∧ (ws ++ x :: S).dropWhile p = x :: S := by
  intro ws
  induction ws with
  | nil =>
    intro x S _ hx
    refine ⟨?_, ?_⟩ <;> simp [List.takeWhile_cons, List.dropWhile_cons, hx]
  | cons w ws ih =>
    intro x S hws hx
    have hw : p w = true := hws w (List.mem_cons_self w ws)
    obtain ⟨h1, h2⟩ := ih x S (fun c hc => hws c (List.mem_cons_of_mem w hc)) hx
    refine ⟨?_, ?_⟩
    · simp [List.takeWhile_cons, hw, h1]
    · simp [List.dropWhile_cons, hw, h2]

theorem goPrintf_cons_ne (repl : Nat → List Char) (c : Char) (cs : List Char) (fuel : Nat)
    (hc : c ≠ '%') :
    goPrintf repl (fuel + 1) (c :: cs) = c :: goPrintf repl fuel cs := by
  rw [goPrintf.eq_def]
  split
  · omega
  · rename_i heq
    exact absurd heq (by simp)
  · rename_i heq
    rw [List.cons.injEq] at heq
    exact absurd heq.1 hc
  · rename_i heq
    rw [List.cons.injEq] at heq
    obtain ⟨h1, h2⟩ := heq
    subst h1
    subst h2
    simp_all

theorem goPrintf_id (repl : Nat → List Char) :
    ∀ (l : List Char) (fuel : Nat), '%' ∉ l → l.length < fuel →
      goPrintf repl fuel l = l := by
  intro l
  induction l with
  | nil =>
    intro fuel _ hf
    cases fuel with
    | zero => omega
    | succ f => rfl
  | cons c cs ih =>
    intro fuel hm hf
    cases fuel with
    | zero => omega
    | succ f =>
      rw [goPrintf_cons_ne repl c cs f (List.ne_of_not_mem_cons hm).symm]
      rw [ih f (List.not_mem_of_not_mem_cons hm) (by simp at hf ; omega)]

theorem goPrintf_append (repl : Nat → List Char) :
    ∀ (l : List Char) (fuel : Nat) (r : List Char), '%' ∉ l →
      goPrintf repl (l.length + fuel) (l ++ r) = l ++ goPrintf repl fuel r := by
  intro l
  induction l with
  | nil => intro fuel r _; simp
  | cons c cs ih =>
    intro fuel r hm
    have hlen : (c :: cs).length + fuel = (cs.length + fuel) + 1 := by
      simp [List.length_cons]
      omega
    rw [hlen]
    show goPrintf repl ((cs.length + fuel) + 1) (c :: (cs ++ r)) = c :: (cs ++ goPrintf repl fuel r)
    rw [goPrintf_cons_ne repl c (cs ++ r) (cs.length + fuel) (List.ne_of_not_mem_cons hm).symm]
    rw [ih fuel r (List.not_mem_of_not_mem_cons hm)]

theorem isEmpty_false_of_ne_nil (l : List Char) (h : l ≠ []) : l.isEmpty = false := by
  cases l with
  | nil => exact absurd rfl h
  | cons c cs => rfl

theorem goPrintf_token (repl : Nat → List Char) (ws S : List Char) (fuel : Nat)
    (hws : ws ≠ []) (hwsd : ∀ c ∈ ws, isDig c = true) :
    goPrintf repl (fuel + 1) ('%' :: '0' :: (ws ++ 'd' :: S)) =
      repl (parseDec ws) ++ goPrintf repl fuel S := by
  obtain ⟨htake, hdrop⟩ := takeWhile_all_append isDig ws 'd' S hwsd (by decide)
  show (if ((ws ++ 'd' :: S).takeWhile isDig).isEmpty then
      '%' :: goPrintf repl fuel ('0' :: (ws ++ 'd' :: S))
    else
      match (ws ++ 'd' :: S).dropWhile isDig with
      | 'd' :: rest2 =>
        repl (parseDec ((ws ++ 'd' :: S).takeWhile isDig)) ++ goPrintf repl fuel rest2
      | _ => '%' :: goPrintf repl fuel ('0' :: (ws ++ 'd' :: S))) =
      repl (parseDec ws) ++ goPrintf repl fuel S
  rw [htake, hdrop, isEmpty_false_of_ne_nil ws hws]
  simp only [Bool.false_eq_true, if_false]

theorem goHash_cons (repl : Nat → List Char) (c : Char) (cs : List Char) (fuel : Nat)
    (hc : c ≠ '#') :
    goHash repl (fuel + 1) (c :: cs) = c :: goHash repl fuel cs := by
  rw [goHash.eq_def]
  dsimp only
  rw [if_neg hc]

theorem goHash_id (repl : Nat → List Char) :
    ∀ (l : List Char) (fuel : Nat), '#' ∉ l → l.length < fuel →
      goHash repl fuel l = l := by
  intro l
  induction l with
  | nil =>
    intro fuel _ hf
    cases fuel with
    | zero => omega
    | succ f => rfl
  | cons c cs ih =>
    intro fuel hm hf
    cases fuel with
    | zero => omega
    | succ f =>
      rw [goHash_cons repl c cs f (List.ne_of_not_mem_cons hm).symm]
      rw [ih f (List.not_mem_of_not_mem_cons hm) (by simp at hf ; omega)]

theorem subHashTok_id (repl : Nat → List Char) (l : List Char) (h : '#' ∉ l) :
    subHashTok repl l = l :=
  goHash_id repl l (l.length + 1) h (by omega)

theorem subPrintfTok_token (repl : Nat → List Char) (P ws S : List Char)
    (hP : '%' ∉ P) (hS : '%' ∉ S) (hws : ws ≠ []) (hwsd : ∀ c ∈ ws, isDig c = true) :
    subPrintfTok repl (P ++ '%' :: '0' :: (ws ++ 'd' :: S)) =
      P ++ (repl (parseDec ws) ++ S) := by
  unfold subPrintfTok
  have hlen : (P ++ '%' :: '0' :: (ws ++ 'd' :: S)).length + 1 =
      P.length + (((2 + ws.length + S.length) + 1) + 1) := by
    simp [List.length_append, List.length_cons]
    omega
  rw [hlen]
  rw [goPrintf_append repl P _ _ hP]
  rw [goPrintf_token repl ws S _ hws hwsd]
  rw [goPrintf_id repl S _ hS (by omega)]

theorem formatPattern_token (P ws S : List Char) (n : Nat)
    (hP : '%' ∉ P) (hS : '%' ∉ S) (hPh : '#' ∉ P) (hSh : '#' ∉ S)
    (hws : ws ≠ []) (hwsd : ∀ c ∈ ws, isDig c = true) :
    formatPattern (P ++ '%' :: '0' :: (ws ++ 'd' :: S)) n =
      P ++ (zfill (parseDec ws) (natDigits n) ++ S) := by
  unfold formatPattern
  rw [subPrintfTok_token _ P ws S hP hS hws hwsd]
  apply subHashTok_id
  intro hmem
  rw [List.mem_append, List.mem_append] at hmem
  rcases hmem with h | h | h
  · exact hPh h
  · have := zfill_all_dig (parseDec ws) n _ h
    exact absurd this (by decide)
  · exact hSh h

theorem isDig_toNat (c : Char) (h : isDig c = true) : 48 ≤ c.toNat ∧ c.toNat ≤ 57 := by
  unfold isDig at h
  rw [Bool.and_eq_true, decide_eq_true_iff, decide_eq_true_iff] at h
  obtain ⟨h1, h2⟩ := h
  rw [Char.le_def] at h1 h2
  exact ⟨h1, h2⟩

theorem pyReEscape_append (A B : List Char) :
    pyReEscape (A ++ B) = pyReEscape A ++ pyReEscape B := by
  unfold pyReEscape
  simp [List.flatMap_append]

theorem pyReEscapeChar_plain (c : Char) (hc : c.toNat ∉ ([40, 41, 91, 93, 123, 125, 63,
    42, 43, 45, 124, 94, 36, 92, 46, 38, 126, 35, 32, 9, 10, 13, 11, 12] : List Nat)) :
    pyReEscapeChar c = [c] := by
  unfold pyReEscapeChar
  rw [if_neg hc]

theorem pyReEscapeChar_special (c : Char) (hc : c.toNat ∈ ([40, 41, 91, 93, 123, 125, 63,
    42, 43, 45, 124, 94, 36, 92, 46, 38, 126, 35, 32, 9, 10, 13, 11, 12] : List Nat)) :
    pyReEscapeChar c = ['\\', c] := by
  unfold pyReEscapeChar
  rw [if_pos hc]

theorem digit_not_special (c : Char) (h : isDig c = true) :
    c.toNat ∉ ([40, 41, 91, 93, 123, 125, 63,
      42, 43, 45, 124, 94, 36, 92, 46, 38, 126, 35, 32, 9, 10, 13, 11, 12] : List Nat) := by
  obtain ⟨h1, h2⟩ := isDig_toNat c h
  intro hmem
  simp only [List.mem_cons, List.not_mem_nil, or_false] at hmem
  omega

theorem pyReEscape_cons_plain (c : Char) (T : List Char)
    (hc : c.toNat ∉ ([40, 41, 91, 93, 123, 125, 63,
      42, 43, 45, 124, 94, 36, 92, 46, 38, 126, 35, 32, 9, 10, 13, 11, 12] : List Nat)) :
    pyReEscape (c :: T) = c :: pyReEscape T := by
  show pyReEscapeChar c ++ pyReEscape T = c :: pyReEscape T
  rw [pyReEscapeChar_plain c hc]
  rfl

theorem pyReEscape_digits_append : ∀ (ws T : List Char),
    (∀ c ∈ ws, isDig c = true) →
    pyReEscape (ws ++ T) = ws ++ pyReEscape T := by
  intro ws
  induction ws with
  | nil => intro T _; rfl
  | cons w ws ih =>
    intro T hws
    show pyReEscape (w :: (ws ++ T)) = w :: (ws ++ pyReEscape T)
    rw [pyReEscape_cons_plain w _ (digit_not_special w (hws w (List.mem_cons_self w ws)))]
    rw [ih T (fun c hc => hws c (List.mem_cons_of_mem w hc))]

theorem not_mem_pyReEscape (x : Char) (X : List Char) (hx : x ∉ X) (hxb : x ≠ '\\') :
    x ∉ pyReEscape X := by
  intro hmem
  unfold pyReEscape at hmem
  rw [List.mem_flatMap] at hmem
  obtain ⟨c, hcX, hcu⟩ := hmem
  unfold pyReEscapeChar at hcu
  split_ifs at hcu
  · rw [List.mem_cons, List.mem_singleton] at hcu
    rcases hcu with h | h
    · exact hxb h
    · subst h
      exact hx hcX
  · rw [List.mem_singleton] at hcu
    subst hcu
    exact hx hcX

theorem parseRegexBody_backslash (x : Char) (T : List Char) (hx : x ≠ 'd') :
    parseRegexBody ('\\' :: x :: T) =
      (parseRegexBody T).map (fun i => RItem.lit x :: i) := by
  simp [parseRegexBody, hx]

theorem parseRegexBody_plain (x : Char) (T : List Char)
    (h1 : x ≠ '(') (h2 : x ≠ ')') (h3 : x ≠ '\\')
    (h4 : x ≠ '^') (h5 : x ≠ Char.ofNat 36) :
    parseRegexBody (x :: T) = (parseRegexBody T).map (fun i => RItem.lit x :: i) := by
  simp [parseRegexBody, h1, h2, h3, h4, h5]

theorem parseRegexBody_group (r : List Char) :
    parseRegexBody ('(' :: '\\' :: 'd' :: '+' :: ')' :: r) =
      (parseRegexBody r).map (fun i => RItem.group :: i) := rfl

theorem parseRegexBody_esc (r : List Char) :
    ∀ (X : List Char), parseRegexBody (pyReEscape X ++ r) =
      (parseRegexBody r).map (fun i => litItems X ++ i) := by
  intro X
  induction X with
  | nil =>
    show parseRegexBody r = _
    cases h : parseRegexBody r <;> simp [litItems]
  | cons x X ih =>
    show parseRegexBody ((pyReEscapeChar x ++ pyReEscape X) ++ r) = _
    by_cases hx : x.toNat ∈ ([40, 41, 91, 93, 123, 125, 63,
        42, 43, 45, 124, 94, 36, 92, 46, 38, 126, 35, 32, 9, 10, 13, 11, 12] : List Nat)
    · rw [pyReEscapeChar_special x hx]
      show parseRegexBody ('\\' :: x :: (pyReEscape X ++ r)) = _
      rw [parseRegexBody_backslash x _ (by
        intro h
        subst h
        exact absurd hx (by decide))]
      rw [ih]
      cases parseRegexBody r <;> simp [litItems]
    · rw [pyReEscapeChar_plain x hx]
      show parseRegexBody (x :: (pyReEscape X ++ r)) = _
      rw [parseRegexBody_plain x _
        (by intro h; subst h; exact hx (by decide))
        (by intro h; subst h; exact hx (by decide))
        (by intro h; subst h; exact hx (by decide))
        (by intro h; subst h; exact hx (by decide))
        (by intro h; subst h; exact hx (by decide))]
      rw [ih]
      cases parseRegexBody r <;> simp [litItems]

theorem compileAnchored_body (body : List Char) :
    compileAnchored ('^' :: (body ++ ['$'])) = parseRegexBody body := by
  have h1 : (body ++ [Char.ofNat 36]).getLast? = some (Char.ofNat 36) :=
    List.getLast?_concat _
  have h2 : (body ++ [Char.ofNat 36]).dropLast = body := List.dropLast_concat
  simp [compileAnchored, h1, h2]

theorem pattern_to_regex_token (P ws S : List Char)
    (hP : '%' ∉ P) (hS : '%' ∉ S) (hPh : '#' ∉ P) (hSh : '#' ∉ S)
    (hws : ws ≠ []) (hwsd : ∀ c ∈ ws, isDig c = true) :
    compileAnchored (pattern_to_regex (P ++ '%' :: '0' :: (ws ++ 'd' :: S))) =
      some (litItems P ++ RItem.group :: litItems S) := by
  have he1 : pyReEscape (P ++ '%' :: '0' :: (ws ++ 'd' :: S)) =
      pyReEscape P ++ '%' :: '0' :: (ws ++ 'd' :: pyReEscape S) := by
    rw [pyReEscape_append]
    congr 1
    rw [pyReEscape_cons_plain '%' _ (by decide)]
    rw [pyReEscape_cons_plain '0' _ (by decide)]
    rw [pyReEscape_digits_append ws ('d' :: S) hwsd]
    rw [pyReEscape_cons_plain 'd' _ (by decide)]
  have hemain : pattern_to_regex (P ++ '%' :: '0' :: (ws ++ 'd' :: S)) =
      '^' :: ((pyReEscape P ++ (groupFrag ++ pyReEscape S)) ++ [Char.ofNat 36]) := by
    unfold pattern_to_regex
    dsimp only
    rw [he1]
    rw [subPrintfTok_token _ (pyReEscape P) ws (pyReEscape S)
      (not_mem_pyReEscape '%' P hP (by decide)) (not_mem_pyReEscape '%' S hS (by decide))
      hws hwsd]
    rw [subHashTok_id _ _ (by
      intro hmem
      rw [List.mem_append, List.mem_append] at hmem
      rcases hmem with h | h | h
      · exact not_mem_pyReEscape '#' P hPh (by decide) h
      · exact absurd h (by decide)
      · exact not_mem_pyReEscape '#' S hSh (by decide) h)]
    rfl
  rw [hemain, compileAnchored_body]
  rw [parseRegexBody_esc]
  rw [show groupFrag ++ pyReEscape S = '(' :: '\\' :: 'd' :: '+' :: ')' :: pyReEscape S
    from rfl]
  rw [parseRegexBody_group]
  rw [← List.append_nil (pyReEscape S)]
  rw [parseRegexBody_esc]
  rw [show parseRegexBody ([] : List Char) = some [] from rfl]
  simp [litItems]

theorem matchItems_lits_self : ∀ (S : List Char),
    matchItems (litItems S) S = some none := by
  intro S
  induction S with
  | nil => rfl
  | cons c S ih =>
    show (if c = c then matchItems (litItems S) S else none) = some none
    rw [if_pos rfl]
    exact ih

theorem matchItems_lits_sound : ∀ (S u : List Char) (g : Option (List Char)),
    matchItems (litItems S) u = some g → u = S ∧ g = none := by
  intro S
  induction S with
  | nil =>
    intro u g h
    cases u with
    | nil =>
      refine ⟨rfl, ?_⟩
      injection h with h
      exact h.symm
    | cons x xs => exact absurd h (by simp [matchItems, litItems])
  | cons c S ih =>
    intro u g h
    cases u with
    | nil => exact absurd h (by simp [matchItems, litItems])
    | cons x xs =>
      show x :: xs = c :: S ∧ g = none
      have hred : matchItems (litItems (c :: S)) (x :: xs) =
          if x = c then matchItems (litItems S) xs else none := rfl
      rw [hred] at h
      by_cases hxc : x = c
      · rw [if_pos hxc] at h
        obtain ⟨h1, h2⟩ := ih xs g h
        subst hxc
        rw [h1]
        exact ⟨rfl, h2⟩
      · rw [if_neg hxc] at h
        exact absurd h (by simp)

theorem matchItems_lits_consume : ∀ (X : List Char) (rest : List RItem) (t : List Char),
    matchItems (litItems X ++ rest) (X ++ t) = matchItems rest t := by
  intro X
  induction X with
  | nil => intro rest t; rfl
  | cons c X ih =>
    intro rest t
    show (if c = c then matchItems (litItems X ++ rest) (X ++ t) else none) = matchItems rest t
    rw [if_pos rfl]
    exact ih rest t

theorem tryLens_group (m : List Char → Option (Option (List Char))) (t : List Char) (p : Nat) :
    ∀ (k : Nat), p ≤ k + 1 → 1 ≤ p →
      (∀ j, p < j → j ≤ k + 1 → m (t.drop j) = none) →
      m (t.drop p) = some none →
      tryLens m t (k + 1) true = some (some (t.take p)) := by
  intro k
  induction k with
  | zero =>
    intro hp1 hp2 hup hs
    have hpe : p = 1 := by omega
    subst hpe
    show (match m (t.drop 1) with
      | some g => if true = true then some (some (t.take 1)) else some g
      | none => tryLens m t 0 true) = some (some (t.take 1))
    rw [hs]
    rfl
  | succ k ih =>
    intro hp1 hp2 hup hs
    by_cases hpk : p = k + 2
    · subst hpk
      show (match m (t.drop (k + 2)) with
        | some g => if true = true then some (some (t.take (k + 2))) else some g
        | none => tryLens m t (k + 1) true) = some (some (t.take (k + 2)))
      rw [hs]
      rfl
    · have hnone : m (t.drop (k + 2)) = none := hup (k + 2) (by omega) (by omega)
      show (match m (t.drop (k + 2)) with
        | some g => if true = true then some (some (t.take (k + 2))) else some g
        | none => tryLens m t (k + 1) true) = some (some (t.take p))
      rw [hnone]
      exact ih (by omega) hp2 (fun j hj1 hj2 => hup j hj1 (by omega)) hs

theorem takeWhile_prefix_len_ge (p : Char → Bool) :
    ∀ (pad S : List Char), (∀ c ∈ pad, p c = true) →
      pad.length ≤ ((pad ++ S).takeWhile p).length := by
  intro pad
  induction pad with
  | nil => intro S _; simp
  | cons c cs ih =>
    intro S hall
    rw [List.cons_append, List.takeWhile_cons, hall c (List.mem_cons_self c cs)]
    simp only [if_true, List.length_cons]
    have := ih S (fun x hx => hall x (List.mem_cons_of_mem c hx))
    omega

theorem matchItems_group_pad (S pad : List Char) (hpad : ∀ c ∈ pad, isDig c = true)
    (hpadne : pad ≠ []) :
    matchItems (RItem.group :: litItems S) (pad ++ S) = some (some pad) := by
  have hk0ge : pad.length ≤ (((pad ++ S).takeWhile isDig)).length :=
    takeWhile_prefix_len_ge isDig pad S hpad
  have hk0le : (((pad ++ S).takeWhile isDig)).length ≤ (pad ++ S).length := by
    have h : (pad ++ S).takeWhile isDig ++ (pad ++ S).dropWhile isDig = pad ++ S :=
      List.takeWhile_append_dropWhile isDig (pad ++ S)
    have h2 := congrArg List.length h
    rw [List.length_append] at h2
    omega
  have hpadpos : 1 ≤ pad.length := by
    cases pad with
    | nil => exact absurd rfl hpadne
    | cons c cs => simp
  have htk : (pad ++ S).take pad.length = pad := List.take_left pad S
  have hdr : (pad ++ S).drop pad.length = S := List.drop_left pad S
  show tryLens (fun s => matchItems (litItems S) s) (pad ++ S)
      (((pad ++ S).takeWhile isDig).length) true = some (some pad)
  cases hk0 : (((pad ++ S).takeWhile isDig)).length with
  | zero => omega
  | succ k =>
    conv_rhs => rw [← htk]
    apply tryLens_group (fun s => matchItems (litItems S) s) (pad ++ S) pad.length k
      (by omega) hpadpos
    · intro j hj1 hj2
      cases hm : matchItems (litItems S) ((pad ++ S).drop j) with
      | none => rfl
      | some g =>
        exfalso
        obtain ⟨heq, _⟩ := matchItems_lits_sound S _ g hm
        have hlen := congrArg List.length heq
        rw [List.length_drop, List.length_append] at hlen
        have hba : (pad ++ S).length = pad.length + S.length := by
          rw [List.length_append]
        omega
    · rw [hdr]
      exact matchItems_lits_self S

/-- C9 counterexample: for the hash-token pattern `shot.####.exr`,
formatting frame 7 yields `shot.0007.exr`, but re-parsing that filename
through the shared token grammar fails: Python 3.7+ `re.escape` escapes
`#`, so each escaped `#` is its own run and the substitution produces
the malformed regex fragment backslash-`(backslash-d+)` whose unmatched
parenthesis makes `re.compile` raise `re.error`; no frame number is
recovered, while the claim promises the round-trip recovers the frame
for every pattern with one frame-number token. -/
theorem C9_counterexample :
    formatPattern exHashPattern 7 = ("shot.0007.exr").toList ∧
    parseFrameViaPattern exHashPattern (formatPattern exHashPattern 7) = none :=
  ⟨by decide, by decide⟩

/-- C9 (amended): for every pattern with a single printf-style frame
token (`%0` followed by a non-empty digit width and `d`) whose prefix
and suffix contain no `%` and no `#`, formatting any frame number and
re-parsing the resulting filename through the shared token grammar
(`_pattern_to_regex` plus group-1 `int`) recovers exactly that frame
number; hash-token patterns do not round-trip (see the
counterexample). -/
theorem C9_amended (P ws S : List Char) (n : Nat)
    (hP1 : '%' ∉ P) (hP2 : '#' ∉ P) (hS1 : '%' ∉ S) (hS2 : '#' ∉ S)
    (hws : ws ≠ []) (hwsd : ∀ c ∈ ws, isDig c = true) :
    parseFrameViaPattern (P ++ '%' :: '0' :: (ws ++ 'd' :: S))
      (formatPattern (P ++ '%' :: '0' :: (ws ++ 'd' :: S)) n) = some n := by
  rw [formatPattern_token P ws S n hP1 hS1 hP2 hS2 hws hwsd]
  unfold parseFrameViaPattern
  rw [pattern_to_regex_token P ws S hP1 hS1 hP2 hS2 hws hwsd]
  dsimp only
  rw [matchItems_lits_consume P (RItem.group :: litItems S) _]
  rw [matchItems_group_pad S (zfill (parseDec ws) (natDigits n))
    (zfill_all_dig (parseDec ws) n) (zfill_ne_nil (parseDec ws) n)]
  dsimp only
  rw [parseDec_zfill]

theorem C9_amended_witness :
    parseFrameViaPattern (("beauty.").toList ++ '%' :: '0' :: (['4'] ++ 'd' :: (".exr").toList))
      (formatPattern
        (("beauty.").toList ++ '%' :: '0' :: (['4'] ++ 'd' :: (".exr").toList)) 7) =
      some 7 :=
  C9_amended (("beauty.").toList) ['4'] ((".exr").toList) 7
    (by decide) (by decide) (by decide) (by decide) (by decide) (by decide)

end EXR